import Mathlib

/-!
Verification of the segment-lifecycle / flush-pipeline cores of the
repository (DataCoord RPC handlers in `datacoord`, and the DataNode
rendezvous flush manager in `internal/datanode/data_sync_service.go`).

The Go sources are shallowly embedded: pure request handlers become Lean
functions from an explicit server state (interfaces such as the meta store,
channel manager or segment manager, whose implementations are not part of
the provided sources, appear as function-valued fields of that state, or as
definitions whose doc comment starts with `Modelled from the spec:`);
stateful calls the handlers perform are tracked as explicit effect lists;
the concurrent per-segment flush queue becomes a small operational trace
model whose validity predicate is an executable state machine.
-/

namespace Milvus

/-- Go type `UniqueID = typeutil.UniqueID = int64`; 64-bit overflow never
matters for the claims below, so it is embedded as `Int`. -/
abbrev UniqueID := Int

/-- `internalpb.MsgPosition`; the Go `MsgID []byte` is only ever used as a
map key via `string(pos.MsgID)`, so it is embedded as `String`. -/
structure MsgPosition where
  channelName : String
  msgID : String
  timestamp : Nat
deriving DecidableEq

/-- `commonpb.ErrorCode`, restricted to the two values the embedded
handlers produce. -/
inductive ErrorCode
  | Success
  | UnexpectedError
deriving DecidableEq

/-- `commonpb.Status`. -/
structure Status where
  errorCode : ErrorCode
  reason : String
deriving DecidableEq

/-- `commonpb.SegmentState`; `NotExist` stands for the proto zero value
used when a state field is left unset. -/
inductive SegmentState
  | NotExist
  | Growing
  | Sealed
  | Flushing
  | Flushed
  | Dropped
deriving DecidableEq

/-- `datapb.FieldBinlog`. -/
structure FieldBinlog where
  fieldID : UniqueID
  binlogs : List String
deriving DecidableEq

/-- `datapb.DeltaLogInfo`. `recordEntries` is `uint64` in Go; the cast from
the (non-negative) buffer size never wraps in practice and is kept as `Int`. -/
structure DeltaLogInfo where
  recordEntries : Int
  timestampFrom : Nat
  timestampTo : Nat
  deltaLogPath : String
  deltaLogSize : Int
deriving DecidableEq

/-- `datapb.CheckPoint`. -/
structure CheckPoint where
  segmentID : UniqueID
  numOfRows : Int
  position : MsgPosition
deriving DecidableEq

/-- `datapb.SegmentStartPosition`. -/
structure SegmentStartPosition where
  segmentID : UniqueID
  startPosition : MsgPosition
deriving DecidableEq

/-- The fields of `datapb.SegmentInfo` that the embedded handlers read. -/
structure SegmentInfo where
  id : UniqueID
  collectionID : UniqueID
  partitionID : UniqueID
  insertChannel : String
  state : SegmentState
  numOfRows : Int
  startPosition : Option MsgPosition
  compactionFrom : List UniqueID
  binlogs : List FieldBinlog
  statslogs : List FieldBinlog
  deltalogs : List DeltaLogInfo
deriving DecidableEq

/-- `commonpb.MsgBase`, restricted to the `SourceID` field the handlers read. -/
structure MsgBase where
  sourceID : Int
deriving DecidableEq

/-- `datapb.SaveBinlogPathsRequest`. -/
structure SaveBinlogPathsRequest where
  base : MsgBase
  segmentID : UniqueID
  collectionID : UniqueID
  field2BinlogPaths : List FieldBinlog
  field2StatslogPaths : List FieldBinlog
  deltalogs : List DeltaLogInfo
  checkPoints : List CheckPoint
  startPositions : List SegmentStartPosition
  flushed : Bool
  dropped : Bool
deriving DecidableEq

/-- An allocation returned by the segment manager
(`datacoord.Allocation`): segment id, reserved row count, expiry. -/
structure Allocation where
  segmentID : UniqueID
  numOfRows : Int
  expireTime : Nat
deriving DecidableEq

/-- State of a `datacoord.compactionTask` (`compactionTaskState` in Go). -/
inductive CompactionTaskState
  | pipelining
  | executing
  | completed
  | failed
  | timeout
deriving DecidableEq

/-- `datacoord.compactionTask`, restricted to the `state` field that
`getCompactionState` reads. -/
structure CompactionTask where
  state : CompactionTaskState
deriving DecidableEq

/-- `commonpb.CompactionState`. -/
inductive CompactionState
  | Executing
  | Completed
deriving DecidableEq

/-- Side effects a DataCoord handler performs on its collaborators
(meta store, segment manager, channel manager, compaction trigger, flush
channel).  The embedding records the calls in program order; an empty list
means the handler returned without touching any of them. -/
inductive DCEffect
  | dropSegment (segmentID : UniqueID)
  | updateFlushSegmentsInfo (segmentID : UniqueID) (flushed dropped : Bool)
  | removeChannel (channel : String)
  | dropSegmentsOfChannel (channel : String)
  | sendFlushCh (segmentID : UniqueID)
  | triggerSingleCompaction (collectionID partitionID segmentID : UniqueID) (channel : String)
  | watchChannel (channel : String) (collectionID : UniqueID)
  | allocSegment (collectionID partitionID : UniqueID) (channel : String) (count : Int)
  | sealAllSegments (collectionID : UniqueID)
deriving DecidableEq

/-- The DataCoord server together with the environment its handlers
consult.  Interface collaborators whose implementations are not part of the
provided sources (meta store internals, channel manager, segment manager,
allocator) are function-valued fields, so a theorem can quantify over their
behaviour. -/
structure ServerState where
  /-- `s.isServing`, read atomically by `isClosed`. -/
  isServing : Int
  /-- `Params.NodeID`. -/
  nodeID : Int
  /-- `Params.TimeTickChannelName`. -/
  timeTickChannelName : String
  /-- `Params.StatisticsChannelName`. -/
  statisticsChannelName : String
  /-- `Params.SegmentInfoChannelName`. -/
  segmentInfoChannelName : String
  /-- `Params.EnableCompaction`. -/
  enableCompaction : Bool
  /-- the segment records held by `s.meta`. -/
  segments : List SegmentInfo
  /-- `s.channelManager.Match(nodeID, channel)`. -/
  channelMatch : Int → String → Bool
  /-- whether `s.GetCollection(ctx, collectionID)` returns non-nil. -/
  getCollection : UniqueID → Bool
  /-- `s.segmentManager.AllocSegment(ctx, coll, part, channel, count)`. -/
  allocSegment : UniqueID → UniqueID → String → Int → Except String (List Allocation)
  /-- error outcome of `s.segmentManager.SealAllSegments`; `none` means the
  call succeeds and seals per the spec model below. -/
  sealError : Option String
  /-- error outcome of `s.meta.UpdateFlushSegmentsInfo`. -/
  updateFlushError : Option String
  /-- error outcome of `getTimetravelReverseTime`. -/
  timetravelError : Option String
  /-- error outcome of `s.channelManager.Watch` per channel name. -/
  watchError : String → Option String
  /-- `s.compactionHandler.getCompactionTasksBySignalID`. -/
  getCompactionTasks : Int → List CompactionTask

/-- Modelled from the spec: server-state constants (`ServerStateStopped`,
`ServerStateInitializing`, `ServerStateHealthy`); their definition lives
outside the provided sources, only `ServerStateHealthy` is compared against. -/
def ServerStateHealthy : Int := 2

/-- `Server.isClosed`: the server is closed whenever `isServing` is not
`ServerStateHealthy`. -/
def isClosed (s : ServerState) : Bool :=
  decide (s.isServing ≠ ServerStateHealthy)

/-- Modelled from the spec: the typed reason `serverNotServing` returned by
every guarded handler; the constant itself is declared outside the provided
sources. -/
def serverNotServingErrMsg : String := "server is not serving"

/-- Modelled from the spec: `msgDataCoordIsUnhealthy(nodeID)`, the unhealthy
reason used by the compaction/watch/metrics handlers; declared outside the
provided sources. -/
def msgDataCoordIsUnhealthy (nodeID : Int) : String :=
  "DataCoord " ++ toString nodeID ++ " is not healthy"

/-- Modelled from the spec: `s.meta.GetSegment(id)` (meta store contract,
spec section 4.1); the meta implementation is not in the provided sources. -/
def getSegment (s : ServerState) (id : UniqueID) : Option SegmentInfo :=
  s.segments.find? fun seg => decide (seg.id = id)

/-- Modelled from the spec: `s.meta.GetSegmentsByChannel(channel)` (meta
store contract, spec section 4.1). -/
def getSegmentsByChannel (s : ServerState) (channel : String) : List SegmentInfo :=
  s.segments.filter fun seg => decide (seg.insertChannel = channel)

/-- Modelled from the spec: `s.meta.GetSegmentsIDOfCollection`. -/
def GetSegmentsIDOfCollection (s : ServerState) (collectionID : UniqueID) : List UniqueID :=
  (s.segments.filter fun seg => decide (seg.collectionID = collectionID)).map (·.id)

/-- Modelled from the spec: `s.meta.GetSegmentsIDOfPartition`. -/
def GetSegmentsIDOfPartition (s : ServerState) (collectionID partitionID : UniqueID) :
    List UniqueID :=
  (s.segments.filter fun seg =>
    decide (seg.collectionID = collectionID ∧ seg.partitionID = partitionID)).map (·.id)

/-- `milvuspb.StringResponse`. -/
structure StringResponse where
  status : Status
  value : String
deriving DecidableEq

/-- `Server.GetTimeTickChannel` (legacy API): returns the time tick channel
name with a Success status; note it performs no serving-state check. -/
def GetTimeTickChannel (s : ServerState) : StringResponse :=
  { status := ⟨.Success, ""⟩, value := s.timeTickChannelName }

/-- `Server.GetStatisticsChannel` (legacy API): returns the statistics
channel name with a Success status; no serving-state check. -/
def GetStatisticsChannel (s : ServerState) : StringResponse :=
  { status := ⟨.Success, ""⟩, value := s.statisticsChannelName }

/-- `Server.GetSegmentInfoChannel` (legacy API): returns the segment info
channel name with a Success status; no serving-state check. -/
def GetSegmentInfoChannel (s : ServerState) : StringResponse :=
  { status := ⟨.Success, ""⟩, value := s.segmentInfoChannelName }

/-- `datapb.FlushRequest`. -/
structure FlushRequest where
  dbID : UniqueID
  collectionID : UniqueID
deriving DecidableEq

/-- `datapb.FlushResponse`. -/
structure FlushResponse where
  status : Status
  dbID : UniqueID
  collectionID : UniqueID
  segmentIDs : List UniqueID
deriving DecidableEq

/-- Modelled from the spec: `SealAllSegments(collectionID)` seals every
Growing segment of the collection and returns their IDs (spec section 4.5);
the segment manager implementation is not in the provided sources.  Returns
the updated meta plus the sealed IDs. -/
def SealAllSegments (meta : List SegmentInfo) (collectionID : UniqueID) :
    List SegmentInfo × List UniqueID :=
  (meta.map fun seg =>
     if seg.collectionID = collectionID ∧ seg.state = SegmentState.Growing then
       { seg with state := SegmentState.Sealed }
     else seg,
   (meta.filter fun seg =>
     decide (seg.collectionID = collectionID ∧ seg.state = SegmentState.Growing)).map (·.id))

/-- `Server.Flush`: rejects when closed; calls `SealAllSegments` and either
reports its error with an empty ID list or echoes DbID/CollectionID and
returns the sealed IDs.  The second component is the meta after the call,
the third the effect list. -/
def Flush (s : ServerState) (req : FlushRequest) :
    FlushResponse × List SegmentInfo × List DCEffect :=
  if isClosed s then
    ({ status := ⟨.UnexpectedError, serverNotServingErrMsg⟩,
       dbID := 0, collectionID := 0, segmentIDs := [] }, s.segments, [])
  else
    match s.sealError with
    | some e =>
      ({ status := ⟨.UnexpectedError,
           "failed to flush " ++ toString req.collectionID ++ ", " ++ e⟩,
         dbID := 0, collectionID := 0, segmentIDs := [] },
       s.segments, [.sealAllSegments req.collectionID])
    | none =>
      let r := SealAllSegments s.segments req.collectionID
      ({ status := ⟨.Success, ""⟩, dbID := req.dbID, collectionID := req.collectionID,
         segmentIDs := r.2 },
       r.1, [.sealAllSegments req.collectionID])

/-- `datapb.SegmentIDRequest`; `count` is `uint32`. -/
structure SegmentIDRequest where
  collectionID : UniqueID
  partitionID : UniqueID
  channelName : String
  count : Nat
deriving DecidableEq

/-- `datapb.AssignSegmentIDRequest`. -/
structure AssignSegmentIDRequest where
  segmentIDRequests : List SegmentIDRequest
deriving DecidableEq

/-- `datapb.SegmentIDAssignment`; `count` is `uint32`, obtained in Go by
the cast `uint32(allocation.NumOfRows)`. -/
structure SegmentIDAssignment where
  segID : UniqueID
  channelName : String
  count : Nat
  collectionID : UniqueID
  partitionID : UniqueID
  expireTime : Nat
  status : Status
deriving DecidableEq

/-- `datapb.AssignSegmentIDResponse`. -/
structure AssignSegmentIDResponse where
  status : Status
  segIDAssignments : List SegmentIDAssignment
deriving DecidableEq

/-- The per-request body of `Server.AssignSegmentID`: a request whose
collection lookup returns nil is skipped; the channel is watched; a failed
`AllocSegment` is skipped; successful allocations are appended, with the Go
cast `uint32(allocation.NumOfRows)` embedded as `% 2 ^ 32`. -/
def assignStep (s : ServerState)
    (acc : List SegmentIDAssignment × List DCEffect) (r : SegmentIDRequest) :
    List SegmentIDAssignment × List DCEffect :=
  if s.getCollection r.collectionID = false then acc
  else
    let effs := acc.2 ++
      [DCEffect.watchChannel r.channelName r.collectionID,
       DCEffect.allocSegment r.collectionID r.partitionID r.channelName (Int.ofNat r.count)]
    match s.allocSegment r.collectionID r.partitionID r.channelName (Int.ofNat r.count) with
    | .error _ => (acc.1, effs)
    | .ok allocations =>
      (acc.1 ++ allocations.map fun a =>
        { segID := a.segmentID, channelName := r.channelName,
          count := ((a.numOfRows % (2 : Int) ^ 32).toNat),
          collectionID := r.collectionID, partitionID := r.partitionID,
          expireTime := a.expireTime, status := ⟨.Success, ""⟩ }, effs)

/-- `Server.AssignSegmentID`: rejects when closed, otherwise folds
`assignStep` over the segment ID requests and answers Success with whatever
assignments accumulated. -/
def AssignSegmentID (s : ServerState) (req : AssignSegmentIDRequest) :
    AssignSegmentIDResponse × List DCEffect :=
  if isClosed s then
    ({ status := ⟨.UnexpectedError, serverNotServingErrMsg⟩, segIDAssignments := [] }, [])
  else
    let res := req.segmentIDRequests.foldl (assignStep s) ([], [])
    ({ status := ⟨.Success, ""⟩, segIDAssignments := res.1 }, res.2)

/-- Modelled from the spec: the segment allocator (spec section 4.4) on
success returns a single allocation covering the requested count with
`expireTime = now + allocationTTL`. -/
def specAllocSegment (now ttl : Nat) (segID : UniqueID) (count : Int) : List Allocation :=
  [{ segmentID := segID, numOfRows := count, expireTime := now + ttl }]

/-- `datapb.GetSegmentStatesRequest`. -/
structure GetSegmentStatesRequest where
  segmentIDs : List UniqueID
deriving DecidableEq

/-- `datapb.SegmentStateInfo`. -/
structure SegmentStateInfo where
  status : Status
  segmentID : UniqueID
  state : SegmentState
  startPosition : Option MsgPosition
deriving DecidableEq

/-- `datapb.GetSegmentStatesResponse`. -/
structure GetSegmentStatesResponse where
  status : Status
  states : List SegmentStateInfo
deriving DecidableEq

/-- `Server.GetSegmentStates`: per requested ID, reports either a failure
status (missing segment) or the segment's state and start position. -/
def GetSegmentStates (s : ServerState) (req : GetSegmentStatesRequest) :
    GetSegmentStatesResponse :=
  if isClosed s then
    { status := ⟨.UnexpectedError, serverNotServingErrMsg⟩, states := [] }
  else
    { status := ⟨.Success, ""⟩,
      states := req.segmentIDs.map fun segmentID =>
        match getSegment s segmentID with
        | none =>
          { status := ⟨.UnexpectedError, "failed to get segment " ++ toString segmentID⟩,
            segmentID := segmentID, state := .NotExist, startPosition := none }
        | some info =>
          { status := ⟨.Success, ""⟩, segmentID := segmentID,
            state := info.state, startPosition := info.startPosition } }

/-- `datapb.GetInsertBinlogPathsRequest`. -/
structure GetInsertBinlogPathsRequest where
  segmentID : UniqueID
deriving DecidableEq

/-- `datapb.GetInsertBinlogPathsResponse`; each entry of `paths` is an
`internalpb.StringList`. -/
structure GetInsertBinlogPathsResponse where
  status : Status
  fieldIDs : List UniqueID
  paths : List (List String)
deriving DecidableEq

/-- `Server.GetInsertBinlogPaths`. -/
def GetInsertBinlogPaths (s : ServerState) (req : GetInsertBinlogPathsRequest) :
    GetInsertBinlogPathsResponse :=
  if isClosed s then
    { status := ⟨.UnexpectedError, serverNotServingErrMsg⟩, fieldIDs := [], paths := [] }
  else
    match getSegment s req.segmentID with
    | none => { status := ⟨.UnexpectedError, "segment not found"⟩, fieldIDs := [], paths := [] }
    | some segment =>
      { status := ⟨.Success, ""⟩,
        fieldIDs := segment.binlogs.map (·.fieldID),
        paths := segment.binlogs.map (·.binlogs) }

/-- `datapb.GetSegmentInfoRequest`. -/
structure GetSegmentInfoRequest where
  segmentIDs : List UniqueID
deriving DecidableEq

/-- `datapb.GetSegmentInfoResponse`. -/
structure GetSegmentInfoResponse where
  status : Status
  infos : List SegmentInfo
deriving DecidableEq

/-- The collection loop of `Server.GetSegmentInfo`: returns early with an
error on the first missing segment. -/
def getSegmentInfoLoop (s : ServerState) :
    List UniqueID → List SegmentInfo → Except String (List SegmentInfo)
  | [], acc => .ok acc
  | id :: rest, acc =>
    match getSegment s id with
    | none => .error ("failed to get segment " ++ toString id)
    | some info => getSegmentInfoLoop s rest (acc ++ [info])

/-- `Server.GetSegmentInfo`. -/
def GetSegmentInfo (s : ServerState) (req : GetSegmentInfoRequest) :
    GetSegmentInfoResponse :=
  if isClosed s then
    { status := ⟨.UnexpectedError, serverNotServingErrMsg⟩, infos := [] }
  else
    match getSegmentInfoLoop s req.segmentIDs [] with
    | .error e => { status := ⟨.UnexpectedError, e⟩, infos := [] }
    | .ok infos => { status := ⟨.Success, ""⟩, infos := infos }

/-- `Server.checkShouldDropChannel`: the channel may be dropped when no
segment on it is a live (non-compaction-origin, non-dropped) segment with a
start position. -/
def checkShouldDropChannel (s : ServerState) (channel : String) : Bool :=
  (getSegmentsByChannel s channel).all fun segment =>
    !(segment.startPosition.isSome &&
      decide (segment.compactionFrom.length = 0) &&
      decide (segment.state ≠ SegmentState.Dropped))

/-- `Server.SaveBinlogPaths`: rejects when closed; rejects when the segment
is unknown; rejects with the channel-not-watched reason when
`channelManager.Match(sourceID, channel)` fails; otherwise performs (in
order) the dropped-segment drop, the meta update (whose error aborts), the
conditional channel removal, and the flushed-segment handling including the
optional compaction trigger. -/
def SaveBinlogPaths (s : ServerState) (req : SaveBinlogPathsRequest) :
    Status × List DCEffect :=
  if isClosed s then (⟨.UnexpectedError, serverNotServingErrMsg⟩, [])
  else
    let nodeID := req.base.sourceID
    let segmentID := req.segmentID
    match getSegment s segmentID with
    | none => (⟨.UnexpectedError, "failed to get segment " ++ toString segmentID⟩, [])
    | some segment =>
      let channel := segment.insertChannel
      if s.channelMatch nodeID channel = false then
        (⟨.UnexpectedError,
          "channel " ++ channel ++ " is not watched on node " ++ toString nodeID⟩, [])
      else
        let effs1 := (if req.dropped then [DCEffect.dropSegment segment.id] else []) ++
          [DCEffect.updateFlushSegmentsInfo req.segmentID req.flushed req.dropped]
        match s.updateFlushError with
        | some e => (⟨.UnexpectedError, e⟩, effs1)
        | none =>
          let effs2 := effs1 ++
            (if req.dropped ∧ checkShouldDropChannel s channel then
               [DCEffect.removeChannel channel, DCEffect.dropSegmentsOfChannel channel]
             else [])
          let effs3 := effs2 ++
            (if req.flushed then
               [DCEffect.dropSegment req.segmentID, DCEffect.sendFlushCh req.segmentID] ++
               (if s.enableCompaction ∧ s.timetravelError = none then
                  [DCEffect.triggerSingleCompaction segment.collectionID segment.partitionID
                    segmentID segment.insertChannel]
                else [])
             else [])
          (⟨.Success, ""⟩, effs3)

/-- `datapb.GetFlushedSegmentsRequest`. -/
structure GetFlushedSegmentsRequest where
  collectionID : UniqueID
  partitionID : UniqueID
deriving DecidableEq

/-- `datapb.GetFlushedSegmentsResponse`. -/
structure GetFlushedSegmentsResponse where
  status : Status
  segments : List UniqueID
deriving DecidableEq

/-- The filtering loop of `Server.GetFlushedSegments`: an ID is skipped only
when the lookup returns a segment whose state is not Flushed; in particular
an ID whose lookup is nil is kept (assumed compacted-and-flushed). -/
def getFlushedSegmentsFilter (lookup : UniqueID → Option SegmentInfo)
    (ids : List UniqueID) : List UniqueID :=
  ids.filter fun id =>
    match lookup id with
    | some seg => decide (seg.state = SegmentState.Flushed)
    | none => true

/-- `Server.GetFlushedSegments`: ignores the partition filter when the
requested partition is negative. -/
def GetFlushedSegments (s : ServerState) (req : GetFlushedSegmentsRequest) :
    GetFlushedSegmentsResponse :=
  if isClosed s then
    { status := ⟨.UnexpectedError, serverNotServingErrMsg⟩, segments := [] }
  else
    let segmentIDs :=
      if req.partitionID < 0 then GetSegmentsIDOfCollection s req.collectionID
      else GetSegmentsIDOfPartition s req.collectionID req.partitionID
    { status := ⟨.Success, ""⟩,
      segments := getFlushedSegmentsFilter (getSegment s) segmentIDs }

/-- The body of the counting loop in `getCompactionState` (the Go `switch`
over task states; states other than executing/completed/timeout are not
counted). -/
def compactionCountStep (acc : Nat × Nat × Nat) (t : CompactionTask) : Nat × Nat × Nat :=
  match t.state with
  | .executing => (acc.1 + 1, acc.2.1, acc.2.2)
  | .completed => (acc.1, acc.2.1 + 1, acc.2.2)
  | .timeout => (acc.1, acc.2.1, acc.2.2 + 1)
  | _ => acc

/-- `getCompactionState`: counts executing/completed/timeout tasks and
reports Executing exactly when the executing count is non-zero, Completed
otherwise. -/
def getCompactionState (tasks : List CompactionTask) :
    CompactionState × Nat × Nat × Nat :=
  let c := tasks.foldl compactionCountStep ((0 : Nat), (0 : Nat), (0 : Nat))
  (if c.1 ≠ 0 then CompactionState.Executing else CompactionState.Completed,
   c.1, c.2.1, c.2.2)

/-- `milvuspb.GetCompactionStateRequest`. -/
structure GetCompactionStateRequest where
  compactionID : Int
deriving DecidableEq

/-- `milvuspb.GetCompactionStateResponse`. -/
structure GetCompactionStateResponse where
  status : Status
  state : CompactionState
  executingPlanNo : Int
  completedPlanNo : Int
  timeoutPlanNo : Int
deriving DecidableEq

/-- `Server.GetCompactionState`. -/
def GetCompactionState (s : ServerState) (req : GetCompactionStateRequest) :
    GetCompactionStateResponse :=
  if isClosed s then
    { status := ⟨.UnexpectedError, msgDataCoordIsUnhealthy s.nodeID⟩,
      state := .Completed, executingPlanNo := 0, completedPlanNo := 0, timeoutPlanNo := 0 }
  else if s.enableCompaction = false then
    { status := ⟨.UnexpectedError, "compaction disabled"⟩,
      state := .Completed, executingPlanNo := 0, completedPlanNo := 0, timeoutPlanNo := 0 }
  else
    let tasks := s.getCompactionTasks req.compactionID
    let r := getCompactionState tasks
    { status := ⟨.Success, ""⟩, state := r.1,
      executingPlanNo := Int.ofNat r.2.1, completedPlanNo := Int.ofNat r.2.2.1,
      timeoutPlanNo := Int.ofNat r.2.2.2 }

/-- `datapb.WatchChannelsRequest`. -/
structure WatchChannelsRequest where
  collectionID : UniqueID
  channelNames : List String
deriving DecidableEq

/-- `datapb.WatchChannelsResponse`. -/
structure WatchChannelsResponse where
  status : Status
deriving DecidableEq

/-- The channel loop of `Server.WatchChannels`: watches channels in order
and stops at the first failing `channelManager.Watch`. -/
def watchLoop (s : ServerState) (collectionID : UniqueID) :
    List String → List DCEffect → Option String × List DCEffect
  | [], effs => (none, effs)
  | ch :: rest, effs =>
    let effs := effs ++ [DCEffect.watchChannel ch collectionID]
    match s.watchError ch with
    | some e => (some e, effs)
    | none => watchLoop s collectionID rest effs

/-- `Server.WatchChannels`. -/
def WatchChannels (s : ServerState) (req : WatchChannelsRequest) :
    WatchChannelsResponse × List DCEffect :=
  if isClosed s then
    ({ status := ⟨.UnexpectedError, msgDataCoordIsUnhealthy s.nodeID⟩ }, [])
  else
    match watchLoop s req.collectionID req.channelNames [] with
    | (some e, effs) => ({ status := ⟨.UnexpectedError, e⟩ }, effs)
    | (none, effs) => ({ status := ⟨.Success, ""⟩ }, effs)

/-! ## DataNode flush manager (`internal/datanode/data_sync_service.go`) -/

/-- Contents of a `storage.DeleteData` buffer; the payload is opaque to the
flush manager control flow, only nil-ness is inspected. -/
structure DeleteData where
  pks : List Int
  tss : List Nat
deriving DecidableEq

/-- `datanode.DelDataBuf`: delete buffer plus the delta-log bookkeeping
fields that `flushNotifyFunc` reads. -/
structure DelDataBuf where
  delData : Option DeleteData
  size : Int
  tsFrom : Nat
  tsTo : Nat
  filePath : String
  fileSize : Int
deriving DecidableEq

/-- Contents of a `storage.InsertData` buffer; opaque to the flush manager
control flow. -/
structure InsertData where
  rows : Int
deriving DecidableEq

/-- `datanode.BufferData`: the insert buffer wrapper whose inner `buffer`
may be nil. -/
structure BufferData where
  buffer : Option InsertData
deriving DecidableEq

/-- `datanode.segmentFlushPack`: the result a flush task hands to the
notify function. -/
structure SegmentFlushPack where
  segmentID : UniqueID
  insertLogs : List (UniqueID × String)
  statsLogs : List (UniqueID × String)
  deltaLogs : List DelDataBuf
  pos : MsgPosition
  flushed : Bool
  dropped : Bool
  err : Option String
deriving DecidableEq

/-- Calls `rendezvousFlushManager.flushBufferData` / `flushDelData` make on
the per-segment order flush queue.  `hasKV` records whether the enqueued
task carries a KV write (`flushBufferInsertTask`/`flushBufferDeleteTask`
with non-empty data) or is the empty task `{}`. -/
inductive FMEffect
  | enqueueInsertFlush (segmentID : UniqueID) (binlogs statslogs : List (UniqueID × String))
      (hasKV : Bool) (flushed dropped : Bool) (pos : MsgPosition)
  | enqueueDelFlush (segmentID : UniqueID) (deltaLogs : Option DelDataBuf)
      (hasKV : Bool) (pos : MsgPosition)
deriving DecidableEq

/-- Environment of the rendezvous flush manager for the non-empty data
paths: segment meta lookup, codec serialization, id allocation and key
generation all live outside the provided sources (replica, storage and kv
packages) and are abstracted as fallible functions producing the binlog /
statslog path maps resp. the updated delete buffer. -/
structure FMEnv where
  insertOutcome : UniqueID → MsgPosition → InsertData →
    Except String (List (UniqueID × String) × List (UniqueID × String))
  deleteOutcome : UniqueID → DeleteData → Except String DelDataBuf

/-- `rendezvousFlushManager.flushBufferData`: a nil `BufferData` (or nil
inner buffer) enqueues an empty insert flush task for the segment at the
given position with the supplied flushed/dropped flags and returns nil;
otherwise the buffer is serialized, ids allocated and the KV-writing task
enqueued (abstracted through `FMEnv.insertOutcome`). -/
def flushBufferData (env : FMEnv) (data : Option BufferData) (segmentID : UniqueID)
    (flushed dropped : Bool) (pos : MsgPosition) : Except String (List FMEffect) :=
  match data with
  | none => .ok [.enqueueInsertFlush segmentID [] [] false flushed dropped pos]
  | some d =>
    match d.buffer with
    | none => .ok [.enqueueInsertFlush segmentID [] [] false flushed dropped pos]
    | some buf =>
      match env.insertOutcome segmentID pos buf with
      | .error e => .error e
      | .ok (field2Insert, field2Stats) =>
        .ok [.enqueueInsertFlush segmentID field2Insert field2Stats true flushed dropped pos]

/-- `rendezvousFlushManager.flushDelData`: a nil `DelDataBuf` (or nil inner
`delData`) enqueues an empty delete flush task (with nil delta logs) at the
given position and returns nil; otherwise the buffer is serialized and the
KV-writing task enqueued (abstracted through `FMEnv.deleteOutcome`). -/
def flushDelData (env : FMEnv) (data : Option DelDataBuf) (segmentID : UniqueID)
    (pos : MsgPosition) : Except String (List FMEffect) :=
  match data with
  | none => .ok [.enqueueDelFlush segmentID none false pos]
  | some d =>
    match d.delData with
    | none => .ok [.enqueueDelFlush segmentID none false pos]
    | some dd =>
      match env.deleteOutcome segmentID dd with
      | .error e => .error e
      | .ok d' => .ok [.enqueueDelFlush segmentID (some d') true pos]

/-- Environment of `flushNotifyFunc`: the owning data sync service's
collection, the node id stamped into the request base, the replica answers
(`getSegmentStatisticsUpdates` row count, `listNewSegmentsStartPositions`),
and the final outcome of the `retry.Do` loop around
`dataCoord.SaveBinlogPaths` (`none` = eventual success, `some e` = the
retry loop gave up with error `e`). -/
structure NotifyEnv where
  collectionID : UniqueID
  nodeID : Int
  numRows : Int
  startPositions : List SegmentStartPosition
  rpcOutcome : SaveBinlogPathsRequest → Option String

/-- How an invocation of the notify function terminates. -/
inductive NotifyOutcome
  | panicPackErr (e : String)
  | panicRPC (e : String)
  | done
deriving DecidableEq

/-- Calls `flushNotifyFunc` makes after the error check. -/
inductive NotifyEffect
  | saveBinlogPaths (req : SaveBinlogPathsRequest)
  | segmentFlushed (segmentID : UniqueID)
  | cacheRemove (segmentID : UniqueID)
deriving DecidableEq

/-- The `SaveBinlogPathsRequest` that `flushNotifyFunc` assembles from a
pack: each insert/stats log becomes a single-path `FieldBinlog`, each delta
buffer a `DeltaLogInfo`, and the single checkpoint carries the replica's
current row count at the pack's position. -/
def buildSaveRequest (env : NotifyEnv) (pack : SegmentFlushPack) : SaveBinlogPathsRequest :=
  { base := ⟨env.nodeID⟩,
    segmentID := pack.segmentID,
    collectionID := env.collectionID,
    field2BinlogPaths := pack.insertLogs.map fun kv => ⟨kv.1, [kv.2]⟩,
    field2StatslogPaths := pack.statsLogs.map fun kv => ⟨kv.1, [kv.2]⟩,
    deltalogs := pack.deltaLogs.map fun d =>
      ⟨d.size, d.tsFrom, d.tsTo, d.filePath, d.fileSize⟩,
    checkPoints := [⟨pack.segmentID, env.numRows, pack.pos⟩],
    startPositions := env.startPositions,
    flushed := pack.flushed,
    dropped := pack.dropped }

/-- `flushNotifyFunc`: a pack carrying a non-nil `err` panics the node
immediately, before the request is assembled or any RPC/replica call is
made; otherwise the request is sent (with indefinite retry), a terminal RPC
error also panics, and on success the replica is told about
flushed/dropped segments and the flushing cache entry is removed. -/
def flushNotifyFunc (env : NotifyEnv) (pack : SegmentFlushPack) :
    NotifyOutcome × List NotifyEffect :=
  match pack.err with
  | some e => (.panicPackErr e, [])
  | none =>
    let req := buildSaveRequest env pack
    match env.rpcOutcome req with
    | some e => (.panicRPC e, [.saveBinlogPaths req])
    | none =>
      (.done,
       [.saveBinlogPaths req] ++
       (if pack.flushed || pack.dropped then [.segmentFlushed pack.segmentID] else []) ++
       [.cacheRemove pack.segmentID])

/-! ## Per-segment order flush queue: operational trace model

The `orderFlushQueue` of one segment serializes flush tasks and injections
through signal channels: `init` publishes an already-closed `tailCh`
(src lines 378-385); `getFlushTaskRunner` chains a fresh runner after the
current `tailCh`, bumps `runningTasks` and closes the inject handler
(src 387-406); `postTask` decrements `runningTasks` and re-creates the
inject handler when it reaches zero (src 408-423); `handleInjection`
replaces `tailCh` by a fresh `injectDone` channel, signals `injected`,
waits for `injectOver` and only then closes `injectDone` (src 457-473).

The runner itself (`flushTaskRunner`, file not among the provided sources)
is modelled from the spec, section 4.9: a runner first waits for the signal
channel captured at chaining time, then runs `postTask`, then calls
`notifyFunc`, and finally closes its own `finishSignal`.

A concurrent execution is a trace: a list of atomic events.  Validity of a
trace is an executable state machine (`stepQ`); an event is admissible only
when the corresponding Go statement could execute at that point (channel
closed, phase reached, handler alive, mutual exclusion of `injectMut` /
`tailMut`). -/

/-- Identity of a signal channel: the initially-closed `tailCh`, a runner's
`finishSignal`, or an injection's `injectDone`. -/
inductive Sig
  | initial
  | fin (msgID : String)
  | inj (k : Nat)
deriving DecidableEq

/-- Progress of one flush task runner through its modelled lifecycle. -/
inductive TPhase
  | submitted
  | posted
  | notifying
  | notified
  | finished
deriving DecidableEq

/-- Numeric rank of a phase, used to state monotonicity. -/
def TPhase.idx : TPhase → Nat
  | .submitted => 0
  | .posted => 1
  | .notifying => 2
  | .notified => 3
  | .finished => 4

/-- Progress of the injection currently held by the inject handler:
`injected` has been signalled, resp. `injectOver` has been received. -/
inductive IPhase
  | accepted
  | overed
deriving DecidableEq

/-- Instantaneous state of one segment's order flush queue. -/
structure QState where
  /-- current `tailCh`. -/
  tail : Sig
  /-- the `working` map plus each runner's captured start signal and phase. -/
  tasks : String → Option (Sig × TPhase)
  /-- `runningTasks`. -/
  running : Int
  /-- whether `injectHandler` is non-nil (its goroutine alive). -/
  handlerActive : Bool
  /-- number of injections accepted so far (names the next `injectDone`). -/
  injCount : Nat
  /-- the injection the handler is currently processing, if any. -/
  injPhase : Option (Nat × IPhase)
  /-- signal channels that have been closed. -/
  closedSigs : List Sig

/-- State after `orderFlushQueue.init`: `tailCh` exists and is already
closed, the inject handler is alive, nothing is running. -/
def initQ : QState :=
  { tail := .initial, tasks := fun _ => none, running := 0, handlerActive := true,
    injCount := 0, injPhase := none, closedSigs := [.initial] }

/-- Atomic events of one segment's flush queue.  `submit m` is
`getFlushTaskRunner` storing a new runner for msgID `m` (chaining included);
`postTask`, `notifyBegin`/`notifyEnd` and `closeFin` are the runner's
successive steps; `accept k` is the inject handler taking injection `k`
from `injectCh`, swapping `tailCh` and signalling `injected`; `injectOver`
and `closeInj` are the injector's release and the handler closing
`injectDone`. -/
inductive QEvent
  | submit (m : String)
  | postTask (m : String)
  | notifyBegin (m : String)
  | notifyEnd (m : String)
  | closeFin (m : String)
  | accept (k : Nat)
  | injectOver (k : Nat)
  | closeInj (k : Nat)
deriving DecidableEq

/-- One admissible step of the queue.  `submit` requires an unseen msgID
(positions are unique per invariant I5) and no in-flight injection (a
submitter closing the handler blocks until the handler's current injection
finishes); `postTask` requires the captured start signal closed (the runner
waits on it first); `accept` requires the handler alive and idle. -/
def stepQ (q : QState) : QEvent → Option QState
  | .submit m =>
    if q.tasks m = none ∧ q.injPhase = none then
      some { q with
        tasks := fun x => if x = m then some (q.tail, .submitted) else q.tasks x,
        tail := .fin m,
        running := q.running + 1,
        handlerActive := false }
    else none
  | .postTask m =>
    match q.tasks m with
    | some (s, ph) =>
      if ph = .submitted ∧ s ∈ q.closedSigs then
        some { q with
          tasks := fun x => if x = m then some (s, .posted) else q.tasks x,
          running := q.running - 1,
          handlerActive := if q.running - 1 = 0 then true else q.handlerActive }
      else none
    | none => none
  | .notifyBegin m =>
    match q.tasks m with
    | some (s, ph) =>
      if ph = .posted then
        some { q with tasks := fun x => if x = m then some (s, .notifying) else q.tasks x }
      else none
    | none => none
  | .notifyEnd m =>
    match q.tasks m with
    | some (s, ph) =>
      if ph = .notifying then
        some { q with tasks := fun x => if x = m then some (s, .notified) else q.tasks x }
      else none
    | none => none
  | .closeFin m =>
    match q.tasks m with
    | some (s, ph) =>
      if ph = .notified then
        some { q with
          tasks := fun x => if x = m then some (s, .finished) else q.tasks x,
          closedSigs := .fin m :: q.closedSigs }
      else none
    | none => none
  | .accept k =>
    if q.handlerActive = true ∧ q.injPhase = none ∧ k = q.injCount then
      some { q with tail := .inj k, injCount := k + 1, injPhase := some (k, .accepted) }
    else none
  | .injectOver k =>
    match q.injPhase with
    | some (k', .accepted) =>
      if k = k' then some { q with injPhase := some (k, .overed) } else none
    | _ => none
  | .closeInj k =>
    match q.injPhase with
    | some (k', .overed) =>
      if k = k' then
        some { q with injPhase := none, closedSigs := .inj k :: q.closedSigs }
      else none
    | _ => none

/-- State reached after the first `i` events of trace `t` (`none` when some
event among them was inadmissible). -/
def stQ (t : List QEvent) : Nat → Option QState
  | 0 => some initQ
  | i + 1 =>
    match t.get? i with
    | none => stQ t i
    | some e => (stQ t i).bind fun q => stepQ q e

/-- A trace is valid when every event is admissible in sequence. -/
def ValidQ (t : List QEvent) : Prop := (stQ t t.length).isSome = true

instance (t : List QEvent) : Decidable (ValidQ t) := by
  unfold ValidQ; infer_instance

theorem stQ_get_none {t : List QEvent} {i : Nat} (h : t.get? i = none) :
    stQ t (i + 1) = stQ t i := by
  simp only [stQ, h]

theorem stQ_get_some {t : List QEvent} {i : Nat} {e : QEvent} (h : t.get? i = some e) :
    stQ t (i + 1) = (stQ t i).bind fun q => stepQ q e := by
  simp only [stQ, h]

theorem stQ_isSome_of_succ {t : List QEvent} {i : Nat}
    (h : (stQ t (i + 1)).isSome = true) : (stQ t i).isSome = true := by
  cases hg : t.get? i with
  | none => rw [stQ_get_none hg] at h; exact h
  | some e =>
    rw [stQ_get_some hg] at h
    cases hq : stQ t i with
    | none => rw [hq] at h; simp at h
    | some q => simp

theorem stQ_isSome_anti {t : List QEvent} {i j : Nat} (hij : i ≤ j)
    (h : (stQ t j).isSome = true) : (stQ t i).isSome = true := by
  induction j, hij using Nat.le_induction with
  | base => exact h
  | succ j hij ih => exact ih (stQ_isSome_of_succ h)

theorem stQ_of_ge {t : List QEvent} : ∀ {i : Nat}, t.length ≤ i →
    stQ t i = stQ t t.length := by
  intro i
  induction i with
  | zero =>
    intro h
    have h0 : t.length = 0 := Nat.le_zero.mp h
    rw [h0]
  | succ i ih =>
    intro h
    rcases Nat.lt_or_ge i t.length with hlt | hge
    · have hlen : t.length = i + 1 := by omega
      rw [hlen]
    · have hnone : t.get? i = none := List.get?_eq_none.mpr hge
      rw [stQ_get_none hnone, ih hge]

theorem validQ_states {t : List QEvent} (hv : ValidQ t) (i : Nat) :
    ∃ q, stQ t i = some q := by
  rcases le_or_lt i t.length with hle | hlt
  · have := stQ_isSome_anti hle hv
    exact Option.isSome_iff_exists.mp this
  · rw [stQ_of_ge (Nat.le_of_lt hlt)]
    exact Option.isSome_iff_exists.mp hv

theorem step_of_ev {t : List QEvent} {i : Nat} {e : QEvent} {q' : QState}
    (h' : stQ t (i + 1) = some q') (he : t.get? i = some e) :
    ∃ q, stQ t i = some q ∧ stepQ q e = some q' := by
  rw [stQ_get_some he] at h'
  cases hq : stQ t i with
  | none => rw [hq] at h'; simp at h'
  | some q => rw [hq] at h'; exact ⟨q, rfl, h'⟩

theorem stepQ_submit {q q' : QState} {m : String}
    (h : stepQ q (.submit m) = some q') :
    q.tasks m = none ∧ q.injPhase = none ∧
    q'.tasks m = some (q.tail, .submitted) ∧ q'.tail = .fin m ∧
    (∀ x, x ≠ m → q'.tasks x = q.tasks x) ∧
    q'.closedSigs = q.closedSigs ∧ q'.injPhase = none := by
  by_cases hc : q.tasks m = none ∧ q.injPhase = none
  · simp only [stepQ, if_pos hc] at h
    cases h
    refine ⟨hc.1, hc.2, by simp, rfl, ?_, rfl, hc.2⟩
    intro x hx; simp [hx]
  · simp only [stepQ, if_neg hc] at h
    exact Option.noConfusion h

theorem stepQ_postTask {q q' : QState} {m : String}
    (h : stepQ q (.postTask m) = some q') :
    ∃ s, q.tasks m = some (s, .submitted) ∧ s ∈ q.closedSigs ∧
      q'.tasks m = some (s, .posted) ∧ (∀ x, x ≠ m → q'.tasks x = q.tasks x) ∧
      q'.tail = q.tail ∧ q'.closedSigs = q.closedSigs ∧ q'.injPhase = q.injPhase := by
  cases hq : q.tasks m with
  | none => simp only [stepQ, hq] at h; exact Option.noConfusion h
  | some sp =>
    obtain ⟨s, ph⟩ := sp
    simp only [stepQ, hq] at h
    by_cases hc : ph = TPhase.submitted ∧ s ∈ q.closedSigs
    · rw [if_pos hc] at h
      cases h
      refine ⟨s, ?_, hc.2, by simp, ?_, rfl, rfl, rfl⟩
      · rw [hc.1]
      · intro x hx; simp [hx]
    · rw [if_neg hc] at h; exact Option.noConfusion h

theorem stepQ_notifyBegin {q q' : QState} {m : String}
    (h : stepQ q (.notifyBegin m) = some q') :
    ∃ s, q.tasks m = some (s, .posted) ∧
      q'.tasks m = some (s, .notifying) ∧ (∀ x, x ≠ m → q'.tasks x = q.tasks x) ∧
      q'.tail = q.tail ∧ q'.closedSigs = q.closedSigs ∧ q'.injPhase = q.injPhase := by
  cases hq : q.tasks m with
  | none => simp only [stepQ, hq] at h; exact Option.noConfusion h
  | some sp =>
    obtain ⟨s, ph⟩ := sp
    simp only [stepQ, hq] at h
    by_cases hc : ph = TPhase.posted
    · rw [if_pos hc] at h
      cases h
      refine ⟨s, ?_, by simp, ?_, rfl, rfl, rfl⟩
      · rw [hc]
      · intro x hx; simp [hx]
    · rw [if_neg hc] at h; exact Option.noConfusion h

theorem stepQ_notifyEnd {q q' : QState} {m : String}
    (h : stepQ q (.notifyEnd m) = some q') :
    ∃ s, q.tasks m = some (s, .notifying) ∧
      q'.tasks m = some (s, .notified) ∧ (∀ x, x ≠ m → q'.tasks x = q.tasks x) ∧
      q'.tail = q.tail ∧ q'.closedSigs = q.closedSigs ∧ q'.injPhase = q.injPhase := by
  cases hq : q.tasks m with
  | none => simp only [stepQ, hq] at h; exact Option.noConfusion h
  | some sp =>
    obtain ⟨s, ph⟩ := sp
    simp only [stepQ, hq] at h
    by_cases hc : ph = TPhase.notifying
    · rw [if_pos hc] at h
      cases h
      refine ⟨s, ?_, by simp, ?_, rfl, rfl, rfl⟩
      · rw [hc]
      · intro x hx; simp [hx]
    · rw [if_neg hc] at h; exact Option.noConfusion h

theorem stepQ_closeFin {q q' : QState} {m : String}
    (h : stepQ q (.closeFin m) = some q') :
    ∃ s, q.tasks m = some (s, .notified) ∧
      q'.tasks m = some (s, .finished) ∧ (∀ x, x ≠ m → q'.tasks x = q.tasks x) ∧
      q'.tail = q.tail ∧ q'.closedSigs = .fin m :: q.closedSigs ∧ q'.injPhase = q.injPhase := by
  cases hq : q.tasks m with
  | none => simp only [stepQ, hq] at h; exact Option.noConfusion h
  | some sp =>
    obtain ⟨s, ph⟩ := sp
    simp only [stepQ, hq] at h
    by_cases hc : ph = TPhase.notified
    · rw [if_pos hc] at h
      cases h
      refine ⟨s, ?_, by simp, ?_, rfl, rfl, rfl⟩
      · rw [hc]
      · intro x hx; simp [hx]
    · rw [if_neg hc] at h; exact Option.noConfusion h

theorem stepQ_accept {q q' : QState} {k : Nat}
    (h : stepQ q (.accept k) = some q') :
    q.handlerActive = true ∧ q.injPhase = none ∧ k = q.injCount ∧
    q'.injPhase = some (k, .accepted) ∧ q'.tail = .inj k ∧
    q'.tasks = q.tasks ∧ q'.closedSigs = q.closedSigs := by
  by_cases hc : q.handlerActive = true ∧ q.injPhase = none ∧ k = q.injCount
  · simp only [stepQ, if_pos hc] at h
    cases h
    exact ⟨hc.1, hc.2.1, hc.2.2, rfl, rfl, rfl, rfl⟩
  · simp only [stepQ, if_neg hc] at h
    exact Option.noConfusion h

theorem stepQ_injectOver {q q' : QState} {k : Nat}
    (h : stepQ q (.injectOver k) = some q') :
    q.injPhase = some (k, .accepted) ∧ q'.injPhase = some (k, .overed) ∧
    q'.tail = q.tail ∧ q'.tasks = q.tasks ∧ q'.closedSigs = q.closedSigs := by
  cases hq : q.injPhase with
  | none => simp only [stepQ, hq] at h; exact Option.noConfusion h
  | some kp =>
    obtain ⟨k', ip⟩ := kp
    cases ip with
    | accepted =>
      simp only [stepQ, hq] at h
      by_cases hc : k = k'
      · rw [if_pos hc] at h
        cases h
        exact ⟨by rw [hc], rfl, rfl, rfl, rfl⟩
      · rw [if_neg hc] at h; exact Option.noConfusion h
    | overed => simp only [stepQ, hq] at h; exact Option.noConfusion h

theorem stepQ_closeInj {q q' : QState} {k : Nat}
    (h : stepQ q (.closeInj k) = some q') :
    q.injPhase = some (k, .overed) ∧ q'.injPhase = none ∧
    q'.tail = q.tail ∧ q'.tasks = q.tasks ∧ q'.closedSigs = .inj k :: q.closedSigs := by
  cases hq : q.injPhase with
  | none => simp only [stepQ, hq] at h; exact Option.noConfusion h
  | some kp =>
    obtain ⟨k', ip⟩ := kp
    cases ip with
    | accepted => simp only [stepQ, hq] at h; exact Option.noConfusion h
    | overed =>
      simp only [stepQ, hq] at h
      by_cases hc : k = k'
      · rw [if_pos hc] at h
        cases h
        exact ⟨by rw [hc], rfl, rfl, rfl, rfl⟩
      · rw [if_neg hc] at h; exact Option.noConfusion h

theorem stepQ_tasks_mono {q q' : QState} {e : QEvent} {m : String} {s : Sig} {ph : TPhase}
    (h : stepQ q e = some q') (hm : q.tasks m = some (s, ph)) :
    ∃ ph', q'.tasks m = some (s, ph') ∧ ph.idx ≤ ph'.idx := by
  cases e with
  | submit m' =>
    obtain ⟨hnone, -, -, -, hoth, -, -⟩ := stepQ_submit h
    by_cases hmm : m' = m
    · rw [hmm] at hnone; rw [hnone] at hm; exact Option.noConfusion hm
    · exact ⟨ph, by rw [hoth m (fun hx => hmm hx.symm), hm], le_refl _⟩
  | postTask m' =>
    obtain ⟨s', hprev, -, hnew, hoth, -, -, -⟩ := stepQ_postTask h
    by_cases hmm : m' = m
    · rw [hmm] at hprev hnew
      rw [hprev] at hm
      obtain ⟨hs, hph⟩ := Prod.mk.injEq .. ▸ (Option.some.inj hm)
      exact ⟨.posted, by rw [hnew, hs], by rw [← hph]; decide⟩
    · exact ⟨ph, by rw [hoth m (fun hx => hmm hx.symm), hm], le_refl _⟩
  | notifyBegin m' =>
    obtain ⟨s', hprev, hnew, hoth, -, -, -⟩ := stepQ_notifyBegin h
    by_cases hmm : m' = m
    · rw [hmm] at hprev hnew
      rw [hprev] at hm
      obtain ⟨hs, hph⟩ := Prod.mk.injEq .. ▸ (Option.some.inj hm)
      exact ⟨.notifying, by rw [hnew, hs], by rw [← hph]; decide⟩
    · exact ⟨ph, by rw [hoth m (fun hx => hmm hx.symm), hm], le_refl _⟩
  | notifyEnd m' =>
    obtain ⟨s', hprev, hnew, hoth, -, -, -⟩ := stepQ_notifyEnd h
    by_cases hmm : m' = m
    · rw [hmm] at hprev hnew
      rw [hprev] at hm
      obtain ⟨hs, hph⟩ := Prod.mk.injEq .. ▸ (Option.some.inj hm)
      exact ⟨.notified, by rw [hnew, hs], by rw [← hph]; decide⟩
    · exact ⟨ph, by rw [hoth m (fun hx => hmm hx.symm), hm], le_refl _⟩
  | closeFin m' =>
    obtain ⟨s', hprev, hnew, hoth, -, -, -⟩ := stepQ_closeFin h
    by_cases hmm : m' = m
    · rw [hmm] at hprev hnew
      rw [hprev] at hm
      obtain ⟨hs, hph⟩ := Prod.mk.injEq .. ▸ (Option.some.inj hm)
      exact ⟨.finished, by rw [hnew, hs], by rw [← hph]; decide⟩
    · exact ⟨ph, by rw [hoth m (fun hx => hmm hx.symm), hm], le_refl _⟩
  | accept k =>
    obtain ⟨-, -, -, -, -, htasks, -⟩ := stepQ_accept h
    exact ⟨ph, by rw [htasks, hm], le_refl _⟩
  | injectOver k =>
    obtain ⟨-, -, -, htasks, -⟩ := stepQ_injectOver h
    exact ⟨ph, by rw [htasks, hm], le_refl _⟩
  | closeInj k =>
    obtain ⟨-, -, -, htasks, -⟩ := stepQ_closeInj h
    exact ⟨ph, by rw [htasks, hm], le_refl _⟩

theorem stepQ_closed_mono {q q' : QState} {e : QEvent} {sig : Sig}
    (h : stepQ q e = some q') (hm : sig ∈ q.closedSigs) : sig ∈ q'.closedSigs := by
  cases e with
  | submit m' =>
    obtain ⟨-, -, -, -, -, hcl, -⟩ := stepQ_submit h
    rw [hcl]; exact hm
  | postTask m' =>
    obtain ⟨s', -, -, -, -, -, hcl, -⟩ := stepQ_postTask h
    rw [hcl]; exact hm
  | notifyBegin m' =>
    obtain ⟨s', -, -, -, -, hcl, -⟩ := stepQ_notifyBegin h
    rw [hcl]; exact hm
  | notifyEnd m' =>
    obtain ⟨s', -, -, -, -, hcl, -⟩ := stepQ_notifyEnd h
    rw [hcl]; exact hm
  | closeFin m' =>
    obtain ⟨s', -, -, -, -, hcl, -⟩ := stepQ_closeFin h
    rw [hcl]; exact List.mem_cons_of_mem _ hm
  | accept k =>
    obtain ⟨-, -, -, -, -, -, hcl⟩ := stepQ_accept h
    rw [hcl]; exact hm
  | injectOver k =>
    obtain ⟨-, -, -, -, hcl⟩ := stepQ_injectOver h
    rw [hcl]; exact hm
  | closeInj k =>
    obtain ⟨-, -, -, -, hcl⟩ := stepQ_closeInj h
    rw [hcl]; exact List.mem_cons_of_mem _ hm

theorem stQ_tasks_mono {t : List QEvent} {m : String} {s : Sig} {i j : Nat}
    (hij : i ≤ j) :
    ∀ {qi qj : QState} {ph : TPhase},
      stQ t i = some qi → stQ t j = some qj → qi.tasks m = some (s, ph) →
      ∃ ph', qj.tasks m = some (s, ph') ∧ ph.idx ≤ ph'.idx := by
  induction j, hij using Nat.le_induction with
  | base =>
    intro qi qj ph hi hj hm
    rw [hi] at hj
    cases hj
    exact ⟨ph, hm, le_refl _⟩
  | succ j hij ih =>
    intro qi qj ph hi hj hm
    cases hg : t.get? j with
    | none =>
      rw [stQ_get_none hg] at hj
      exact ih hi hj hm
    | some e =>
      obtain ⟨qj0, hj0, hstep⟩ := step_of_ev hj hg
      obtain ⟨ph1, hm1, hle1⟩ := ih hi hj0 hm
      obtain ⟨ph2, hm2, hle2⟩ := stepQ_tasks_mono hstep hm1
      exact ⟨ph2, hm2, le_trans hle1 hle2⟩

theorem stQ_closed_mono {t : List QEvent} {sig : Sig} {i j : Nat}
    (hij : i ≤ j) :
    ∀ {qi qj : QState},
      stQ t i = some qi → stQ t j = some qj → sig ∈ qi.closedSigs →
      sig ∈ qj.closedSigs := by
  induction j, hij using Nat.le_induction with
  | base =>
    intro qi qj hi hj hm
    rw [hi] at hj
    cases hj
    exact hm
  | succ j hij ih =>
    intro qi qj hi hj hm
    cases hg : t.get? j with
    | none =>
      rw [stQ_get_none hg] at hj
      exact ih hi hj hm
    | some e =>
      obtain ⟨qj0, hj0, hstep⟩ := step_of_ev hj hg
      exact stepQ_closed_mono hstep (ih hi hj0 hm)

/-- The event that moves task `m` to the phase of rank `n`. -/
def phaseEv (m : String) : Nat → QEvent
  | 0 => .submit m
  | 1 => .postTask m
  | 2 => .notifyBegin m
  | 3 => .notifyEnd m
  | _ => .closeFin m

theorem step_tasks_back {q q' : QState} {e : QEvent} {m : String} {s : Sig} {ph : TPhase}
    (h : stepQ q e = some q') (hm : q'.tasks m = some (s, ph)) :
    q.tasks m = some (s, ph) ∨
    (e = phaseEv m ph.idx ∧
      (ph = .submitted ∨ ∃ ph₀, q.tasks m = some (s, ph₀) ∧ ph₀.idx + 1 = ph.idx)) := by
  cases e with
  | submit m' =>
    obtain ⟨hnone, -, hnew, -, hoth, -, -⟩ := stepQ_submit h
    by_cases hmm : m' = m
    · subst hmm
      rw [hnew] at hm
      obtain ⟨hs, hph⟩ := Prod.mk.injEq .. ▸ (Option.some.inj hm)
      right
      rw [← hph]
      exact ⟨rfl, Or.inl rfl⟩
    · left; rw [← hoth m (fun hx => hmm hx.symm)]; exact hm
  | postTask m' =>
    obtain ⟨s', hprev, -, hnew, hoth, -, -, -⟩ := stepQ_postTask h
    by_cases hmm : m' = m
    · subst hmm
      rw [hnew] at hm
      obtain ⟨hs, hph⟩ := Prod.mk.injEq .. ▸ (Option.some.inj hm)
      right
      rw [← hph]
      exact ⟨rfl, Or.inr ⟨.submitted, by rw [hprev, hs], by decide⟩⟩
    · left; rw [← hoth m (fun hx => hmm hx.symm)]; exact hm
  | notifyBegin m' =>
    obtain ⟨s', hprev, hnew, hoth, -, -, -⟩ := stepQ_notifyBegin h
    by_cases hmm : m' = m
    · subst hmm
      rw [hnew] at hm
      obtain ⟨hs, hph⟩ := Prod.mk.injEq .. ▸ (Option.some.inj hm)
      right
      rw [← hph]
      exact ⟨rfl, Or.inr ⟨.posted, by rw [hprev, hs], by decide⟩⟩
    · left; rw [← hoth m (fun hx => hmm hx.symm)]; exact hm
  | notifyEnd m' =>
    obtain ⟨s', hprev, hnew, hoth, -, -, -⟩ := stepQ_notifyEnd h
    by_cases hmm : m' = m
    · subst hmm
      rw [hnew] at hm
      obtain ⟨hs, hph⟩ := Prod.mk.injEq .. ▸ (Option.some.inj hm)
      right
      rw [← hph]
      exact ⟨rfl, Or.inr ⟨.notifying, by rw [hprev, hs], by decide⟩⟩
    · left; rw [← hoth m (fun hx => hmm hx.symm)]; exact hm
  | closeFin m' =>
    obtain ⟨s', hprev, hnew, hoth, -, -, -⟩ := stepQ_closeFin h
    by_cases hmm : m' = m
    · subst hmm
      rw [hnew] at hm
      obtain ⟨hs, hph⟩ := Prod.mk.injEq .. ▸ (Option.some.inj hm)
      right
      rw [← hph]
      exact ⟨rfl, Or.inr ⟨.notified, by rw [hprev, hs], by decide⟩⟩
    · left; rw [← hoth m (fun hx => hmm hx.symm)]; exact hm
  | accept k =>
    obtain ⟨-, -, -, -, -, htasks, -⟩ := stepQ_accept h
    left; rw [← htasks]; exact hm
  | injectOver k =>
    obtain ⟨-, -, -, htasks, -⟩ := stepQ_injectOver h
    left; rw [← htasks]; exact hm
  | closeInj k =>
    obtain ⟨-, -, -, htasks, -⟩ := stepQ_closeInj h
    left; rw [← htasks]; exact hm

theorem tasks_hist {t : List QEvent} {m : String} :
    ∀ {i : Nat} {qi : QState} {s : Sig} {ph : TPhase} {n : Nat},
      stQ t i = some qi → qi.tasks m = some (s, ph) → n ≤ ph.idx →
      ∃ j, j < i ∧ t.get? j = some (phaseEv m n) := by
  intro i
  induction i with
  | zero =>
    intro qi s ph n hi hm hn
    simp only [stQ] at hi
    cases hi
    simp only [initQ] at hm
    exact Option.noConfusion hm
  | succ i ih =>
    intro qi s ph n hi hm hn
    cases hg : t.get? i with
    | none =>
      rw [stQ_get_none hg] at hi
      obtain ⟨j, hj, he⟩ := ih hi hm hn
      exact ⟨j, Nat.lt_succ_of_lt hj, he⟩
    | some e =>
      obtain ⟨qi0, hi0, hstep⟩ := step_of_ev hi hg
      rcases step_tasks_back hstep hm with hsame | ⟨hev, hcase⟩
      · obtain ⟨j, hj, he⟩ := ih hi0 hsame hn
        exact ⟨j, Nat.lt_succ_of_lt hj, he⟩
      · rcases Nat.lt_or_ge n ph.idx with hlt | hge
        · rcases hcase with hsub | ⟨ph₀, hprev, hidx⟩
          · rw [hsub] at hlt
            exact absurd hlt (by simp [TPhase.idx])
          · have hn0 : n ≤ ph₀.idx := by omega
            obtain ⟨j, hj, he⟩ := ih hi0 hprev hn0
            exact ⟨j, Nat.lt_succ_of_lt hj, he⟩
        · have hn' : n = ph.idx := le_antisymm hn hge
          refine ⟨i, Nat.lt_succ_self i, ?_⟩
          rw [hg, hn', ← hev]

theorem step_closed_back {q q' : QState} {e : QEvent} {sig : Sig}
    (h : stepQ q e = some q') (hm : sig ∈ q'.closedSigs) :
    sig ∈ q.closedSigs ∨
    (∃ m, sig = .fin m ∧ e = .closeFin m) ∨
    (∃ k, sig = .inj k ∧ e = .closeInj k) := by
  cases e with
  | submit m' =>
    obtain ⟨-, -, -, -, -, hcl, -⟩ := stepQ_submit h
    left; rw [← hcl]; exact hm
  | postTask m' =>
    obtain ⟨s', -, -, -, -, -, hcl, -⟩ := stepQ_postTask h
    left; rw [← hcl]; exact hm
  | notifyBegin m' =>
    obtain ⟨s', -, -, -, -, hcl, -⟩ := stepQ_notifyBegin h
    left; rw [← hcl]; exact hm
  | notifyEnd m' =>
    obtain ⟨s', -, -, -, -, hcl, -⟩ := stepQ_notifyEnd h
    left; rw [← hcl]; exact hm
  | closeFin m' =>
    obtain ⟨s', -, -, -, -, hcl, -⟩ := stepQ_closeFin h
    rw [hcl] at hm
    rcases List.mem_cons.mp hm with heq | hmem
    · exact Or.inr (Or.inl ⟨m', heq, rfl⟩)
    · exact Or.inl hmem
  | accept k =>
    obtain ⟨-, -, -, -, -, -, hcl⟩ := stepQ_accept h
    left; rw [← hcl]; exact hm
  | injectOver k =>
    obtain ⟨-, -, -, -, hcl⟩ := stepQ_injectOver h
    left; rw [← hcl]; exact hm
  | closeInj k =>
    obtain ⟨-, -, -, -, hcl⟩ := stepQ_closeInj h
    rw [hcl] at hm
    rcases List.mem_cons.mp hm with heq | hmem
    · exact Or.inr (Or.inr ⟨k, heq, rfl⟩)
    · exact Or.inl hmem

theorem closed_hist {t : List QEvent} :
    ∀ {i : Nat} {qi : QState} {sig : Sig},
      stQ t i = some qi → sig ∈ qi.closedSigs →
      sig = .initial ∨
      (∃ m j, sig = .fin m ∧ j < i ∧ t.get? j = some (.closeFin m)) ∨
      (∃ k j, sig = .inj k ∧ j < i ∧ t.get? j = some (.closeInj k)) := by
  intro i
  induction i with
  | zero =>
    intro qi sig hi hm
    simp only [stQ] at hi
    cases hi
    simp only [initQ, List.mem_singleton] at hm
    exact Or.inl hm
  | succ i ih =>
    intro qi sig hi hm
    cases hg : t.get? i with
    | none =>
      rw [stQ_get_none hg] at hi
      rcases ih hi hm with h0 | ⟨m, j, hsig, hj, he⟩ | ⟨k, j, hsig, hj, he⟩
      · exact Or.inl h0
      · exact Or.inr (Or.inl ⟨m, j, hsig, Nat.lt_succ_of_lt hj, he⟩)
      · exact Or.inr (Or.inr ⟨k, j, hsig, Nat.lt_succ_of_lt hj, he⟩)
    | some e =>
      obtain ⟨qi0, hi0, hstep⟩ := step_of_ev hi hg
      rcases step_closed_back hstep hm with hsame | ⟨m, hsig, hev⟩ | ⟨k, hsig, hev⟩
      · rcases ih hi0 hsame with h0 | ⟨m, j, hsig, hj, he⟩ | ⟨k, j, hsig, hj, he⟩
        · exact Or.inl h0
        · exact Or.inr (Or.inl ⟨m, j, hsig, Nat.lt_succ_of_lt hj, he⟩)
        · exact Or.inr (Or.inr ⟨k, j, hsig, Nat.lt_succ_of_lt hj, he⟩)
      · refine Or.inr (Or.inl ⟨m, i, hsig, Nat.lt_succ_self i, ?_⟩)
        rw [hg, hev]
      · refine Or.inr (Or.inr ⟨k, i, hsig, Nat.lt_succ_self i, ?_⟩)
        rw [hg, hev]

theorem submit_unique {t : List QEvent} {m : String} {i j : Nat}
    (hv : ValidQ t)
    (hi : t.get? i = some (.submit m)) (hj : t.get? j = some (.submit m)) : i = j := by
  rcases lt_trichotomy i j with hlt | heq | hgt
  · exfalso
    obtain ⟨qi', hqi'⟩ := validQ_states hv (i + 1)
    obtain ⟨qi, hqi, hstepi⟩ := step_of_ev hqi' hi
    obtain ⟨-, -, hnew, -, -, -, -⟩ := stepQ_submit hstepi
    obtain ⟨qj, hqj⟩ := validQ_states hv j
    obtain ⟨qj', hqj'⟩ := validQ_states hv (j + 1)
    obtain ⟨qj2, hqj2, hstepj⟩ := step_of_ev hqj' hj
    rw [hqj] at hqj2
    cases hqj2
    obtain ⟨hnone, -⟩ := stepQ_submit hstepj
    obtain ⟨ph', hm', -⟩ := stQ_tasks_mono (by omega : i + 1 ≤ j) hqi' hqj hnew
    rw [hnone] at hm'
    exact Option.noConfusion hm'
  · exact heq
  · exfalso
    obtain ⟨qj', hqj'⟩ := validQ_states hv (j + 1)
    obtain ⟨qj, hqj, hstepj⟩ := step_of_ev hqj' hj
    obtain ⟨-, -, hnew, -, -, -, -⟩ := stepQ_submit hstepj
    obtain ⟨qi, hqi⟩ := validQ_states hv i
    obtain ⟨qi', hqi'⟩ := validQ_states hv (i + 1)
    obtain ⟨qi2, hqi2, hstepi⟩ := step_of_ev hqi' hi
    rw [hqi] at hqi2
    cases hqi2
    obtain ⟨hnone, -⟩ := stepQ_submit hstepi
    obtain ⟨ph', hm', -⟩ := stQ_tasks_mono (by omega : j + 1 ≤ i) hqj' hqi hnew
    rw [hnone] at hm'
    exact Option.noConfusion hm'

theorem notifyEnd_unique {t : List QEvent} {m : String} {i j : Nat}
    (hv : ValidQ t)
    (hi : t.get? i = some (.notifyEnd m)) (hj : t.get? j = some (.notifyEnd m)) : i = j := by
  have key : ∀ a b : Nat, a < b → t.get? a = some (.notifyEnd m) →
      t.get? b = some (.notifyEnd m) → False := by
    intro a b hab ha hb
    obtain ⟨qa', hqa'⟩ := validQ_states hv (a + 1)
    obtain ⟨qa, hqa, hstepa⟩ := step_of_ev hqa' ha
    obtain ⟨s, -, hnew, -, -, -, -⟩ := stepQ_notifyEnd hstepa
    obtain ⟨qb, hqb⟩ := validQ_states hv b
    obtain ⟨qb', hqb'⟩ := validQ_states hv (b + 1)
    obtain ⟨qb2, hqb2, hstepb⟩ := step_of_ev hqb' hb
    rw [hqb] at hqb2
    cases hqb2
    obtain ⟨s2, hprev2, -⟩ := stepQ_notifyEnd hstepb
    obtain ⟨ph', hm', hle⟩ := stQ_tasks_mono (by omega : a + 1 ≤ b) hqa' hqb hnew
    rw [hprev2] at hm'
    obtain ⟨-, hph⟩ := Prod.mk.injEq .. ▸ (Option.some.inj hm')
    rw [← hph] at hle
    simp [TPhase.idx] at hle
  rcases lt_trichotomy i j with hlt | heq | hgt
  · exact absurd (key i j hlt hi hj) not_false
  · exact heq
  · exact absurd (key j i hgt hj hi) not_false

/-- Between two submissions with no accepted injection in between, the
queue's tail is always the finish signal of some task submitted in the
window (initially the first submission's). -/
theorem tail_window {t : List QEvent} (hv : ValidQ t) {p1 : String} {i1 i2 : Nat}
    (h1 : t.get? i1 = some (.submit p1)) (h12 : i1 < i2)
    (hacc : ∀ j k, i1 < j → j < i2 → t.get? j ≠ some (.accept k)) :
    ∀ i, i1 < i → i ≤ i2 → ∀ qi, stQ t i = some qi →
      ∃ r ir, ir < i ∧ i1 ≤ ir ∧ t.get? ir = some (.submit r) ∧ qi.tail = .fin r ∧
        (r = p1 ∨ i1 < ir) := by
  intro i hi1
  induction i, (by omega : i1 + 1 ≤ i) using Nat.le_induction with
  | base =>
    intro hle qi hqi
    obtain ⟨q1, hq1, hstep⟩ := step_of_ev hqi h1
    obtain ⟨-, -, -, htail, -, -, -⟩ := stepQ_submit hstep
    exact ⟨p1, i1, Nat.lt_succ_self i1, le_refl i1, h1, htail, Or.inl rfl⟩
  | succ i hile ih =>
    intro hle qi hqi
    have hi2 : i < i2 := by omega
    cases hg : t.get? i with
    | none =>
      rw [stQ_get_none hg] at hqi
      obtain ⟨r, ir, hiri, hi1ir, hsir, htail, hcase⟩ := ih (by omega) qi hqi
      exact ⟨r, ir, by omega, hi1ir, hsir, htail, hcase⟩
    | some e =>
      obtain ⟨qi0, hqi0, hstep⟩ := step_of_ev hqi hg
      obtain ⟨r, ir, hiri, hi1ir, hsir, htail, hcase⟩ := ih (by omega) qi0 hqi0
      cases e with
      | submit m =>
        obtain ⟨-, -, -, htail', -, -, -⟩ := stepQ_submit hstep
        exact ⟨m, i, Nat.lt_succ_self i, by omega, hg, htail', Or.inr (by omega)⟩
      | postTask m =>
        obtain ⟨s', -, -, -, -, ht', -, -⟩ := stepQ_postTask hstep
        exact ⟨r, ir, by omega, hi1ir, hsir, by rw [ht', htail], hcase⟩
      | notifyBegin m =>
        obtain ⟨s', -, -, -, ht', -, -⟩ := stepQ_notifyBegin hstep
        exact ⟨r, ir, by omega, hi1ir, hsir, by rw [ht', htail], hcase⟩
      | notifyEnd m =>
        obtain ⟨s', -, -, -, ht', -, -⟩ := stepQ_notifyEnd hstep
        exact ⟨r, ir, by omega, hi1ir, hsir, by rw [ht', htail], hcase⟩
      | closeFin m =>
        obtain ⟨s', -, -, -, ht', -, -⟩ := stepQ_closeFin hstep
        exact ⟨r, ir, by omega, hi1ir, hsir, by rw [ht', htail], hcase⟩
      | accept k =>
        exact absurd hg (hacc i k (by omega) hi2)
      | injectOver k =>
        obtain ⟨-, -, ht', -, -⟩ := stepQ_injectOver hstep
        exact ⟨r, ir, by omega, hi1ir, hsir, by rw [ht', htail], hcase⟩
      | closeInj k =>
        obtain ⟨-, -, ht', -, -⟩ := stepQ_closeInj hstep
        exact ⟨r, ir, by omega, hi1ir, hsir, by rw [ht', htail], hcase⟩

/-- Core chain argument: when no injection is accepted between the
submissions of `p1` and `p2`, any begin-of-notify of `p2` is preceded by an
end-of-notify of `p1` (walking the `tailCh` chain backwards). -/
theorem notifyEnd_before_of_chain {t : List QEvent} (hv : ValidQ t)
    {p1 : String} {i1 : Nat} (h1 : t.get? i1 = some (.submit p1)) :
    ∀ i2 : Nat, ∀ p2 : String, ∀ jb : Nat,
      t.get? i2 = some (.submit p2) → i1 < i2 →
      (∀ j k, i1 < j → j < i2 → t.get? j ≠ some (.accept k)) →
      t.get? jb = some (.notifyBegin p2) →
      ∃ je, je < jb ∧ t.get? je = some (.notifyEnd p1) := by
  intro i2
  induction i2 using Nat.strong_induction_on with
  | _ i2 IH =>
    intro p2 jb h2 h12 hacc hjb
    -- the submit step of p2 records the tail at i2 as its start signal
    obtain ⟨qi2, hqi2⟩ := validQ_states hv i2
    obtain ⟨qi2', hqi2'⟩ := validQ_states hv (i2 + 1)
    obtain ⟨qi2x, hqi2x, hstep2⟩ := step_of_ev hqi2' h2
    rw [hqi2] at hqi2x
    cases hqi2x
    obtain ⟨-, -, hnew2, -, -, -, -⟩ := stepQ_submit hstep2
    -- the tail at i2 is the finish signal of some task r in the window
    obtain ⟨r, ir, hiri2, hi1ir, hsubr, htailr, hcaser⟩ :=
      tail_window hv h1 h12 hacc i2 h12 (le_refl i2) qi2 hqi2
    -- the notifyBegin of p2 implies a postTask of p2 at some jp < jb
    obtain ⟨qjb', hqjb'⟩ := validQ_states hv (jb + 1)
    obtain ⟨qjb, hqjb, hstepb⟩ := step_of_ev hqjb' hjb
    obtain ⟨s2, hprevb, -⟩ := stepQ_notifyBegin hstepb
    obtain ⟨jp, hjp, hevp⟩ := tasks_hist hqjb hprevb (by decide : 1 ≤ TPhase.posted.idx)
    -- the postTask of p2 requires p2's start signal closed at jp
    obtain ⟨qjp', hqjp'⟩ := validQ_states hv (jp + 1)
    obtain ⟨qjp, hqjp, hstepp⟩ := step_of_ev hqjp' hevp
    obtain ⟨s3, hprevp, hclosedp, -⟩ := stepQ_postTask hstepp
    -- p2's single submit identifies s3 with the tail at i2
    obtain ⟨j0, hj0, hevj0⟩ := tasks_hist hqjp hprevp (by decide : 0 ≤ TPhase.submitted.idx)
    have hj0i2 : j0 = i2 := submit_unique hv hevj0 h2
    have hi2jp : i2 < jp := by omega
    obtain ⟨ph', hm', -⟩ :=
      stQ_tasks_mono (by omega : i2 + 1 ≤ jp) hqi2' hqjp hnew2
    rw [hprevp] at hm'
    obtain ⟨hs23, -⟩ := Prod.mk.injEq .. ▸ (Option.some.inj hm')
    -- hence .fin r is closed at jp: closeFin r happened at some jc < jp
    rw [hs23, htailr] at hclosedp
    rcases closed_hist hqjp hclosedp with habs | ⟨rm, jc, hrm, hjc, hevc⟩ | ⟨k, jc, habs, -, -⟩
    · exact absurd habs (by simp)
    · have hrr : rm = r := by
        injection hrm with h
        exact h.symm
      rw [hrr] at hevc
      -- closeFin r requires notifyEnd r at some jer < jc
      obtain ⟨qjc', hqjc'⟩ := validQ_states hv (jc + 1)
      obtain ⟨qjc, hqjc, hstepc⟩ := step_of_ev hqjc' hevc
      obtain ⟨s4, hprevc, -⟩ := stepQ_closeFin hstepc
      obtain ⟨jer, hjer, heve⟩ := tasks_hist hqjc hprevc (by decide : 3 ≤ TPhase.notified.idx)
      rcases hcaser with hrp1 | hirgt
      · -- the chain bottomed out at p1 itself
        rw [hrp1] at heve
        exact ⟨jer, by omega, heve⟩
      · -- recurse along the chain through r
        obtain ⟨qjer', hqjer'⟩ := validQ_states hv (jer + 1)
        obtain ⟨qjer, hqjer, hstepe⟩ := step_of_ev hqjer' heve
        obtain ⟨s5, hpreve, -⟩ := stepQ_notifyEnd hstepe
        obtain ⟨jbr, hjbr, hevbr⟩ :=
          tasks_hist hqjer hpreve (by decide : 2 ≤ TPhase.notifying.idx)
        obtain ⟨je, hje, heven⟩ := IH ir hiri2 r jbr hsubr hirgt
          (fun j k hj1 hj2 => hacc j k hj1 (by omega)) hevbr
        exact ⟨je, by omega, heven⟩
    · exact absurd habs (by simp)

/-- While the inject handler holds an accepted injection, the only event
that can move the queue onward to an idle injection state is the injector's
`injectOver`. -/
theorem injphase_clears {t : List QEvent} :
    ∀ n : Nat, ∀ {i : Nat} {k : Nat} {qi qi' : QState},
      stQ t i = some qi → qi.injPhase = some (k, .accepted) →
      stQ t (i + n) = some qi' → qi'.injPhase = none →
      ∃ jo, i ≤ jo ∧ jo < i + n ∧ t.get? jo = some (.injectOver k) := by
  intro n
  induction n with
  | zero =>
    intro i k qi qi' hi hacc hi' hnone
    simp only [Nat.add_zero] at hi'
    rw [hi] at hi'
    cases hi'
    rw [hacc] at hnone
    exact Option.noConfusion hnone
  | succ n ih =>
    intro i k qi qi' hi hacc hi' hnone
    cases hg : t.get? i with
    | none =>
      have hstate : stQ t (i + 1) = some qi := by rw [stQ_get_none hg]; exact hi
      have harr : i + 1 + n = i + (n + 1) := by omega
      obtain ⟨jo, hjo1, hjo2, hev⟩ := ih hstate hacc (by rw [harr]; exact hi') hnone
      exact ⟨jo, by omega, by omega, hev⟩
    | some e =>
      have hsome1 : (stQ t (i + 1)).isSome = true := by
        have : (stQ t (i + n + 1)).isSome = true := by
          have harr : i + n + 1 = i + (n + 1) := by omega
          rw [harr, hi']; rfl
        exact stQ_isSome_anti (by omega) this
      obtain ⟨q1, hq1⟩ := Option.isSome_iff_exists.mp hsome1
      obtain ⟨q0, hq0, hstep⟩ := step_of_ev hq1 hg
      rw [hi] at hq0
      cases hq0
      cases e with
      | submit m =>
        obtain ⟨-, hnone0, -⟩ := stepQ_submit hstep
        rw [hacc] at hnone0
        exact Option.noConfusion hnone0
      | postTask m =>
        obtain ⟨s', -, -, -, -, -, -, hinj⟩ := stepQ_postTask hstep
        have hacc1 : q1.injPhase = some (k, .accepted) := by rw [hinj, hacc]
        have harr : i + 1 + n = i + (n + 1) := by omega
        obtain ⟨jo, hjo1, hjo2, hev⟩ := ih hq1 hacc1 (by rw [harr]; exact hi') hnone
        exact ⟨jo, by omega, by omega, hev⟩
      | notifyBegin m =>
        obtain ⟨s', -, -, -, -, -, hinj⟩ := stepQ_notifyBegin hstep
        have hacc1 : q1.injPhase = some (k, .accepted) := by rw [hinj, hacc]
        have harr : i + 1 + n = i + (n + 1) := by omega
        obtain ⟨jo, hjo1, hjo2, hev⟩ := ih hq1 hacc1 (by rw [harr]; exact hi') hnone
        exact ⟨jo, by omega, by omega, hev⟩
      | notifyEnd m =>
        obtain ⟨s', -, -, -, -, -, hinj⟩ := stepQ_notifyEnd hstep
        have hacc1 : q1.injPhase = some (k, .accepted) := by rw [hinj, hacc]
        have harr : i + 1 + n = i + (n + 1) := by omega
        obtain ⟨jo, hjo1, hjo2, hev⟩ := ih hq1 hacc1 (by rw [harr]; exact hi') hnone
        exact ⟨jo, by omega, by omega, hev⟩
      | closeFin m =>
        obtain ⟨s', -, -, -, -, -, hinj⟩ := stepQ_closeFin hstep
        have hacc1 : q1.injPhase = some (k, .accepted) := by rw [hinj, hacc]
        have harr : i + 1 + n = i + (n + 1) := by omega
        obtain ⟨jo, hjo1, hjo2, hev⟩ := ih hq1 hacc1 (by rw [harr]; exact hi') hnone
        exact ⟨jo, by omega, by omega, hev⟩
      | accept k2 =>
        obtain ⟨-, hnone0, -⟩ := stepQ_accept hstep
        rw [hacc] at hnone0
        exact Option.noConfusion hnone0
      | injectOver k2 =>
        obtain ⟨hprev, -⟩ := stepQ_injectOver hstep
        rw [hacc] at hprev
        obtain ⟨hk, -⟩ := Prod.mk.injEq .. ▸ (Option.some.inj hprev)
        refine ⟨i, le_refl i, by omega, ?_⟩
        rw [hg, hk]
      | closeInj k2 =>
        obtain ⟨hprev, -⟩ := stepQ_closeInj hstep
        rw [hacc] at hprev
        obtain ⟨-, habs⟩ := Prod.mk.injEq .. ▸ (Option.some.inj hprev)
        exact absurd habs (by simp)

/-! ## Claim theorems -/

/-- C1 (amended): for two flush tasks of the same segment submitted with
positions `p1` before `p2`, provided no injection is accepted by the
queue's inject handler between the two submissions, the `notifyFunc` call
for `p1` completes before the `notifyFunc` call for `p2` begins — each new
`flushTaskRunner` chains its `finishSignal` after the queue's current
`tailCh`. -/
theorem flushQueue_notify_order_no_injection (t : List QEvent) (p1 p2 : String)
    (i1 i2 je jb : Nat)
    (hv : ValidQ t)
    (h1 : t.get? i1 = some (.submit p1))
    (h2 : t.get? i2 = some (.submit p2))
    (hlt : i1 < i2)
    (hacc : ∀ j k, i1 < j → j < i2 → t.get? j ≠ some (.accept k))
    (hje : t.get? je = some (.notifyEnd p1))
    (hjb : t.get? jb = some (.notifyBegin p2)) :
    je < jb := by
  obtain ⟨je', hje', heve⟩ := notifyEnd_before_of_chain hv h1 i2 p2 jb h2 hlt hacc hjb
  have heq := notifyEnd_unique hv hje heve
  omega

/-- The interleaving refuting C1 as stated: task `a` is submitted first and
reaches `postTask` (re-creating the inject handler before its notify runs,
as `postTask` does in the source); an injection is then accepted and
released, so task `b`, submitted afterwards, chains behind `injectDone`
rather than behind `a`'s `finishSignal` and notifies while `a`'s notify is
still outstanding. -/
def raceTrace : List QEvent :=
  [.submit "a", .postTask "a", .accept 0, .injectOver 0, .closeInj 0,
   .submit "b", .postTask "b", .notifyBegin "b", .notifyEnd "b",
   .notifyBegin "a", .notifyEnd "a"]

/-- C1 counterexample: in the valid trace `raceTrace` the tasks are
submitted in the order `a` (index 0) then `b` (index 5), yet the notify of
`a` ends at index 10, after the notify of `b` began at index 7 — the
claimed ordering `je < jb` fails. -/
theorem flushQueue_notify_order_counterexample :
    ValidQ raceTrace ∧
    raceTrace.get? 0 = some (.submit "a") ∧
    raceTrace.get? 5 = some (.submit "b") ∧
    raceTrace.get? 10 = some (.notifyEnd "a") ∧
    raceTrace.get? 7 = some (.notifyBegin "b") ∧
    ¬ (10 < 7) := by decide

/-- An injection-free valid trace used to instantiate the amended C1. -/
def chainTrace : List QEvent :=
  [.submit "a", .postTask "a", .notifyBegin "a", .notifyEnd "a", .closeFin "a",
   .submit "b", .postTask "b", .notifyBegin "b", .notifyEnd "b"]

theorem flushQueue_notify_order_no_injection_witness :
    ValidQ chainTrace ∧ (3 : Nat) < 7 :=
  ⟨by decide,
   flushQueue_notify_order_no_injection chainTrace "a" "b" 0 5 3 7 (by decide)
     (by decide) (by decide) (by decide)
     (by
       intro j k hj1 hj2 hget
       interval_cases j <;> simp [chainTrace] at hget)
     (by decide) (by decide)⟩

/-- C2 (amended): once the inject handler has accepted an injection
(signalled `injected`), every flush task submitted to the queue afterwards
chains behind the injection's `injectDone` channel, so its `notifyFunc`
cannot begin until the injector has signalled `injectOver`. -/
theorem flushQueue_injection_barrier (t : List QEvent) (k : Nat) (m : String)
    (a im jb : Nat)
    (hv : ValidQ t)
    (ha : t.get? a = some (.accept k))
    (hs : t.get? im = some (.submit m))
    (haim : a < im)
    (hjb : t.get? jb = some (.notifyBegin m)) :
    ∃ jo, a < jo ∧ jo < jb ∧ t.get? jo = some (.injectOver k) := by
  obtain ⟨qa', hqa'⟩ := validQ_states hv (a + 1)
  obtain ⟨qa, hqa, hstepa⟩ := step_of_ev hqa' ha
  obtain ⟨-, -, -, hinja, -, -, -⟩ := stepQ_accept hstepa
  obtain ⟨qim, hqim⟩ := validQ_states hv im
  obtain ⟨qim', hqim'⟩ := validQ_states hv (im + 1)
  obtain ⟨qim0, hqim0, hstepm⟩ := step_of_ev hqim' hs
  rw [hqim] at hqim0
  cases hqim0
  obtain ⟨-, hnonem, -, -, -, -, -⟩ := stepQ_submit hstepm
  have harr : a + 1 + (im - (a + 1)) = im := by omega
  obtain ⟨jo, hjo1, hjo2, hev⟩ :=
    injphase_clears (im - (a + 1)) hqa' hinja (by rw [harr]; exact hqim) hnonem
  obtain ⟨qjb', hqjb'⟩ := validQ_states hv (jb + 1)
  obtain ⟨qjb, hqjb, hstepb⟩ := step_of_ev hqjb' hjb
  obtain ⟨s2, hprevb, -⟩ := stepQ_notifyBegin hstepb
  obtain ⟨j0, hj0, hevj0⟩ := tasks_hist hqjb hprevb (by decide : 0 ≤ TPhase.posted.idx)
  have hj0im : j0 = im := submit_unique hv hevj0 hs
  exact ⟨jo, by omega, by omega, hev⟩

/-- The interleaving refuting C2 as stated: task `a`'s `postTask` runs
(re-creating the inject handler) before its notify; an injection is then
accepted, yet `a`'s pending `notifyFunc` still begins — with `injectOver`
never signalled. -/
def barrierTrace : List QEvent :=
  [.submit "a", .postTask "a", .accept 0, .notifyBegin "a"]

/-- C2 counterexample: in the valid trace `barrierTrace` the injection is
accepted at index 2 and the notify of the already-running task `a` begins
at index 3, although no `injectOver` occurs anywhere in the trace. -/
theorem flushQueue_injection_barrier_counterexample :
    ValidQ barrierTrace ∧
    barrierTrace.get? 2 = some (.accept 0) ∧
    barrierTrace.get? 3 = some (.notifyBegin "a") ∧
    QEvent.injectOver 0 ∉ barrierTrace := by decide

/-- A valid trace where a task is submitted after an accepted injection. -/
def barrierOkTrace : List QEvent :=
  [.accept 0, .injectOver 0, .closeInj 0, .submit "a", .postTask "a", .notifyBegin "a"]

theorem flushQueue_injection_barrier_witness :
    ValidQ barrierOkTrace ∧
    (∃ jo, 0 < jo ∧ jo < 5 ∧ barrierOkTrace.get? jo = some (.injectOver 0)) :=
  ⟨by decide,
   flushQueue_injection_barrier barrierOkTrace 0 "a" 0 3 5 (by decide) (by decide)
     (by decide) (by decide) (by decide)⟩

/-- C3: on a serving server, a `SaveBinlogPaths` request whose source node
does not match the segment's insert channel owner is rejected with a
channel-not-watched reason and performs no effect at all — no meta update,
no segment drop, no channel removal, no compaction trigger. -/
theorem saveBinlogPaths_channel_not_watched (s : ServerState)
    (req : SaveBinlogPathsRequest) (seg : SegmentInfo)
    (hopen : isClosed s = false)
    (hseg : getSegment s req.segmentID = some seg)
    (hmatch : s.channelMatch req.base.sourceID seg.insertChannel = false) :
    SaveBinlogPaths s req =
      (⟨.UnexpectedError,
        "channel " ++ seg.insertChannel ++ " is not watched on node " ++
          toString req.base.sourceID⟩, []) := by
  simp [SaveBinlogPaths, hopen, hseg, hmatch]

/-- A serving server holding one segment, whose channel manager matches no
node. -/
def witSegment : SegmentInfo :=
  { id := 7, collectionID := 1, partitionID := 2, insertChannel := "ch1",
    state := .Flushing, numOfRows := 10, startPosition := some ⟨"ch1", "m0", 0⟩,
    compactionFrom := [], binlogs := [], statslogs := [], deltalogs := [] }

def witServer : ServerState :=
  { isServing := 2, nodeID := 1, timeTickChannelName := "tt",
    statisticsChannelName := "st", segmentInfoChannelName := "si",
    enableCompaction := true,
    segments := [witSegment],
    channelMatch := fun _ _ => false,
    getCollection := fun _ => true,
    allocSegment := fun _ _ _ _ => .error "unavailable",
    sealError := none, updateFlushError := none, timetravelError := none,
    watchError := fun _ => none,
    getCompactionTasks := fun _ => [] }

def witSaveReq : SaveBinlogPathsRequest :=
  { base := ⟨3⟩, segmentID := 7, collectionID := 1, field2BinlogPaths := [],
    field2StatslogPaths := [], deltalogs := [], checkPoints := [], startPositions := [],
    flushed := true, dropped := false }

theorem saveBinlogPaths_channel_not_watched_witness :
    isClosed witServer = false ∧
    SaveBinlogPaths witServer witSaveReq =
      (⟨.UnexpectedError, "channel ch1 is not watched on node 3"⟩, []) :=
  ⟨by decide, by
    rw [saveBinlogPaths_channel_not_watched witServer witSaveReq witSegment (by decide)
      (by decide) rfl]
    decide⟩

/-- A server that is not in the Healthy serving state. -/
def closedServer : ServerState := { witServer with isServing := 0 }

/-- C4 counterexample: on a non-serving server the legacy channel-name
RPCs `GetTimeTickChannel`, `GetStatisticsChannel` and
`GetSegmentInfoChannel` still answer with ErrorCode Success, refuting the
claim that every RPC returns UnexpectedError when the server is not
Healthy. -/
theorem rpc_not_serving_counterexample :
    isClosed closedServer = true ∧
    (GetTimeTickChannel closedServer).status.errorCode = .Success ∧
    (GetStatisticsChannel closedServer).status.errorCode = .Success ∧
    (GetSegmentInfoChannel closedServer).status.errorCode = .Success := by decide

/-- C4 (amended): when the server is not Healthy, every guarded RPC handler
returns ErrorCode UnexpectedError with its not-serving reason and performs
no side effects; the legacy channel-name APIs (`GetTimeTickChannel`,
`GetStatisticsChannel`, `GetSegmentInfoChannel`) are exceptions that skip
the health check and answer Success. -/
theorem rpc_not_serving_guarded (s : ServerState)
    (freq : FlushRequest) (areq : AssignSegmentIDRequest)
    (gsreq : GetSegmentStatesRequest) (gbreq : GetInsertBinlogPathsRequest)
    (gireq : GetSegmentInfoRequest) (sreq : SaveBinlogPathsRequest)
    (gfreq : GetFlushedSegmentsRequest) (creq : GetCompactionStateRequest)
    (wreq : WatchChannelsRequest)
    (hclosed : isClosed s = true) :
    ((Flush s freq).1.status = ⟨.UnexpectedError, serverNotServingErrMsg⟩ ∧
     (Flush s freq).2.1 = s.segments ∧ (Flush s freq).2.2 = []) ∧
    ((AssignSegmentID s areq).1.status = ⟨.UnexpectedError, serverNotServingErrMsg⟩ ∧
     (AssignSegmentID s areq).2 = []) ∧
    (GetSegmentStates s gsreq).status = ⟨.UnexpectedError, serverNotServingErrMsg⟩ ∧
    (GetInsertBinlogPaths s gbreq).status = ⟨.UnexpectedError, serverNotServingErrMsg⟩ ∧
    (GetSegmentInfo s gireq).status = ⟨.UnexpectedError, serverNotServingErrMsg⟩ ∧
    ((SaveBinlogPaths s sreq).1 = ⟨.UnexpectedError, serverNotServingErrMsg⟩ ∧
     (SaveBinlogPaths s sreq).2 = []) ∧
    (GetFlushedSegments s gfreq).status = ⟨.UnexpectedError, serverNotServingErrMsg⟩ ∧
    (GetCompactionState s creq).status = ⟨.UnexpectedError, msgDataCoordIsUnhealthy s.nodeID⟩ ∧
    ((WatchChannels s wreq).1.status = ⟨.UnexpectedError, msgDataCoordIsUnhealthy s.nodeID⟩ ∧
     (WatchChannels s wreq).2 = []) ∧
    (GetTimeTickChannel s).status.errorCode = .Success ∧
    (GetStatisticsChannel s).status.errorCode = .Success ∧
    (GetSegmentInfoChannel s).status.errorCode = .Success := by
  refine ⟨⟨?_, ?_, ?_⟩, ⟨?_, ?_⟩, ?_, ?_, ?_, ⟨?_, ?_⟩, ?_, ?_, ⟨?_, ?_⟩, ?_, ?_, ?_⟩ <;>
    simp [Flush, AssignSegmentID, GetSegmentStates, GetInsertBinlogPaths, GetSegmentInfo,
      SaveBinlogPaths, GetFlushedSegments, GetCompactionState, WatchChannels,
      GetTimeTickChannel, GetStatisticsChannel, GetSegmentInfoChannel, hclosed]

theorem rpc_not_serving_guarded_witness :
    isClosed closedServer = true ∧
    (Flush closedServer ⟨1, 1⟩).1.status = ⟨.UnexpectedError, serverNotServingErrMsg⟩ :=
  ⟨by decide,
   ((rpc_not_serving_guarded closedServer ⟨1, 1⟩ ⟨[]⟩ ⟨[]⟩ ⟨7⟩ ⟨[]⟩ witSaveReq ⟨1, -1⟩
     ⟨5⟩ ⟨1, []⟩ (by decide)).1).1⟩

/-- C5: on a serving server, `Flush` seals every Growing segment of the
requested collection (their IDs are exactly the returned `SegmentIDs` and
they appear Sealed in the resulting meta), echoes the request's DbID and
CollectionID, and on a `SealAllSegments` error answers a failure status
with an empty segment list. -/
theorem flush_seals_growing_segments (s : ServerState) (req : FlushRequest)
    (hopen : isClosed s = false) :
    (s.sealError = none →
      (Flush s req).1.status.errorCode = .Success ∧
      (Flush s req).1.dbID = req.dbID ∧
      (Flush s req).1.collectionID = req.collectionID ∧
      (Flush s req).1.segmentIDs =
        (s.segments.filter fun seg =>
          decide (seg.collectionID = req.collectionID ∧
            seg.state = SegmentState.Growing)).map (·.id) ∧
      (∀ seg ∈ s.segments,
        seg.collectionID = req.collectionID → seg.state = SegmentState.Growing →
          seg.id ∈ (Flush s req).1.segmentIDs ∧
          { seg with state := SegmentState.Sealed } ∈ (Flush s req).2.1)) ∧
    (∀ e, s.sealError = some e →
      (Flush s req).1.status.errorCode = .UnexpectedError ∧
      (Flush s req).1.segmentIDs = []) := by
  constructor
  · intro hseal
    have hflush : Flush s req =
        ({ status := ⟨.Success, ""⟩, dbID := req.dbID, collectionID := req.collectionID,
           segmentIDs := (SealAllSegments s.segments req.collectionID).2 },
         (SealAllSegments s.segments req.collectionID).1,
         [.sealAllSegments req.collectionID]) := by
      simp [Flush, hopen, hseal]
    rw [hflush]
    refine ⟨rfl, rfl, rfl, rfl, ?_⟩
    intro seg hmem hcol hst
    constructor
    · exact List.mem_map.mpr
        ⟨seg, List.mem_filter.mpr ⟨hmem, by simp [hcol, hst]⟩, rfl⟩
    · exact List.mem_map.mpr ⟨seg, hmem, by simp [hcol, hst]⟩
  · intro e hseal
    simp [Flush, hopen, hseal]

/-- A serving server holding one Growing segment of collection 1. -/
def growingSegment : SegmentInfo := { witSegment with id := 11, state := .Growing }

def flushServer : ServerState := { witServer with segments := [growingSegment] }

theorem flush_seals_growing_segments_witness :
    isClosed flushServer = false ∧ flushServer.sealError = none ∧
    (Flush flushServer ⟨9, 1⟩).1.status.errorCode = .Success :=
  ⟨by decide, by decide,
   ((flush_seals_growing_segments flushServer ⟨9, 1⟩ (by decide)).1 (by decide)).1⟩

/-- A serving server whose collection lookup always answers nil. -/
def assignNoCollServer : ServerState := { witServer with getCollection := fun _ => false }

def assignReq5 : AssignSegmentIDRequest := ⟨[⟨1, 1, "ch", 5⟩]⟩

/-- C6 counterexample: a request whose collection lookup answers nil is
silently skipped by `AssignSegmentID` (with an overall Success status), so
the returned counts sum to 0 while 5 rows were requested — refuting the
claimed equality for every request. -/
theorem assignSegmentID_sum_counterexample :
    isClosed assignNoCollServer = false ∧
    (AssignSegmentID assignNoCollServer assignReq5).1.status.errorCode = .Success ∧
    ((AssignSegmentID assignNoCollServer assignReq5).1.segIDAssignments.map (·.count)).sum = 0 ∧
    (assignReq5.segmentIDRequests.map (·.count)).sum = 5 := by decide

/-- C6 (amended): on a serving server, when every request's collection
exists and every `AllocSegment` call succeeds with the allocator of the
spec (one allocation covering the requested count, expiring at
`now + ttl`), the counts of the returned allocations sum to the requested
total and every returned expire time lies in the future of `now`. -/
theorem assignSegmentID_sum_allocated (s : ServerState) (req : AssignSegmentIDRequest)
    (now ttl : Nat) (segIdOf : UniqueID → UniqueID → String → UniqueID)
    (hopen : isClosed s = false)
    (httl : 0 < ttl)
    (hcoll : ∀ c, s.getCollection c = true)
    (halloc : s.allocSegment = fun cid pid ch cnt =>
      Except.ok (specAllocSegment now ttl (segIdOf cid pid ch) cnt))
    (hcount : ∀ r ∈ req.segmentIDRequests, r.count < 2 ^ 32) :
    ((AssignSegmentID s req).1.segIDAssignments.map (·.count)).sum
      = (req.segmentIDRequests.map (·.count)).sum ∧
    ∀ a ∈ (AssignSegmentID s req).1.segIDAssignments, now < a.expireTime := by
  have hstep : ∀ (acc : List SegmentIDAssignment × List DCEffect) (r : SegmentIDRequest),
      r.count < 2 ^ 32 →
      (assignStep s acc r).1 = acc.1 ++
        [{ segID := segIdOf r.collectionID r.partitionID r.channelName,
           channelName := r.channelName, count := r.count,
           collectionID := r.collectionID, partitionID := r.partitionID,
           expireTime := now + ttl, status := ⟨.Success, ""⟩ }] := by
    intro acc r hr
    have hr' : r.count < 4294967296 := by
      have h32 : (2 : Nat) ^ 32 = 4294967296 := by norm_num
      rw [h32] at hr
      exact hr
    have hmod : ((r.count : Int) % 4294967296).toNat = r.count := by
      rw [Int.emod_eq_of_lt (by exact_mod_cast Nat.zero_le r.count) (by exact_mod_cast hr')]
      simp
    simp [assignStep, hcoll, halloc, specAllocSegment, hmod]
  have hfold : ∀ (l : List SegmentIDRequest) (acc : List SegmentIDAssignment × List DCEffect),
      (∀ r ∈ l, r.count < 2 ^ 32) →
      (((l.foldl (assignStep s) acc).1.map (·.count)).sum
        = ((acc.1.map (·.count)).sum + (l.map (·.count)).sum) ∧
       ∀ a ∈ (l.foldl (assignStep s) acc).1, a ∈ acc.1 ∨ a.expireTime = now + ttl) := by
    intro l
    induction l with
    | nil => intro acc hc; exact ⟨by simp, fun a ha => Or.inl ha⟩
    | cons r rest ih =>
      intro acc hc
      have hr : r.count < 2 ^ 32 := hc r (List.mem_cons_self r rest)
      rw [List.foldl_cons]
      obtain ⟨hsum, hmem⟩ := ih (assignStep s acc r) (fun x hx => hc x (List.mem_cons_of_mem r hx))
      constructor
      · rw [hsum, hstep acc r hr]
        simp
        omega
      · intro a ha
        rcases hmem a ha with hin | hexp
        · rw [hstep acc r hr] at hin
          rcases List.mem_append.mp hin with h0 | h1
          · exact Or.inl h0
          · right
            have := List.mem_singleton.mp h1
            rw [this]
        · exact Or.inr hexp
  have hmain : AssignSegmentID s req =
      ({ status := ⟨.Success, ""⟩,
         segIDAssignments := (req.segmentIDRequests.foldl (assignStep s) ([], [])).1 },
       (req.segmentIDRequests.foldl (assignStep s) ([], [])).2) := by
    simp [AssignSegmentID, hopen]
  obtain ⟨hsum, hmem⟩ := hfold req.segmentIDRequests ([], []) hcount
  rw [hmain]
  constructor
  · simpa using hsum
  · intro a ha
    rcases hmem a ha with h0 | h1
    · simp at h0
    · omega

/-- A serving server whose allocator is the spec allocator at now = 100,
ttl = 10. -/
def assignOkServer : ServerState :=
  { witServer with
    allocSegment := fun _ _ _ cnt => .ok (specAllocSegment 100 10 77 cnt) }

theorem assignSegmentID_sum_allocated_witness :
    isClosed assignOkServer = false ∧
    ((AssignSegmentID assignOkServer assignReq5).1.segIDAssignments.map (·.count)).sum = 5 :=
  ⟨by decide, by
    have h := assignSegmentID_sum_allocated assignOkServer assignReq5 100 10
      (fun _ _ _ => 77) (by decide) (by decide) (fun c => rfl) rfl (by decide)
    rw [h.1]
    decide⟩

/-- C7: a flush pack whose `err` field is non-nil makes `flushNotifyFunc`
panic immediately, before any `SaveBinlogPaths` RPC is issued or the
replica is touched (the effect list is empty); a pack with nil `err` never
takes this panic path. -/
theorem flushNotifyFunc_panics_on_pack_error (env : NotifyEnv) (pack : SegmentFlushPack) :
    (∀ e, pack.err = some e → flushNotifyFunc env pack = (.panicPackErr e, [])) ∧
    (pack.err = none → ∀ e, (flushNotifyFunc env pack).1 ≠ .panicPackErr e) := by
  constructor
  · intro e he
    simp [flushNotifyFunc, he]
  · intro hn e
    simp only [flushNotifyFunc, hn]
    cases hrpc : env.rpcOutcome (buildSaveRequest env pack) <;> simp [hrpc]

/-- A flush pack that failed in storage, and a benign notify environment. -/
def packWithErr : SegmentFlushPack :=
  { segmentID := 7, insertLogs := [], statsLogs := [], deltaLogs := [],
    pos := ⟨"ch1", "m1", 5⟩, flushed := true, dropped := false, err := some "disk full" }

def notifyEnvWit : NotifyEnv :=
  { collectionID := 1, nodeID := 4, numRows := 10, startPositions := [],
    rpcOutcome := fun _ => none }

theorem flushNotifyFunc_panics_on_pack_error_witness :
    packWithErr.err = some "disk full" ∧
    flushNotifyFunc notifyEnvWit packWithErr = (.panicPackErr "disk full", []) :=
  ⟨rfl, (flushNotifyFunc_panics_on_pack_error notifyEnvWit packWithErr).1 "disk full" rfl⟩

/-- C8: the filtering loop of `GetFlushedSegments` keeps every listed ID
whose meta lookup is nil (assumed compacted-and-flushed) and drops an ID
only when the segment exists with a state other than Flushed; the handler
applies exactly this filter to the collection- resp. partition-listed IDs. -/
theorem getFlushedSegments_nil_lookup_included
    (lookup : UniqueID → Option SegmentInfo) (ids : List UniqueID) (id : UniqueID)
    (hid : id ∈ ids) :
    (lookup id = none → id ∈ getFlushedSegmentsFilter lookup ids) ∧
    (id ∉ getFlushedSegmentsFilter lookup ids →
      ∃ seg, lookup id = some seg ∧ seg.state ≠ SegmentState.Flushed) ∧
    (∀ s : ServerState, ∀ req : GetFlushedSegmentsRequest, isClosed s = false →
      (GetFlushedSegments s req).segments =
        getFlushedSegmentsFilter (getSegment s)
          (if req.partitionID < 0 then GetSegmentsIDOfCollection s req.collectionID
           else GetSegmentsIDOfPartition s req.collectionID req.partitionID)) := by
  refine ⟨?_, ?_, ?_⟩
  · intro hnone
    refine List.mem_filter.mpr ⟨hid, ?_⟩
    rw [hnone]
  · intro hnot
    cases hl : lookup id with
    | none =>
      exact absurd (List.mem_filter.mpr ⟨hid, by rw [hl]⟩) hnot
    | some seg =>
      refine ⟨seg, rfl, ?_⟩
      intro hfl
      exact hnot (List.mem_filter.mpr ⟨hid, by rw [hl]; simp [hfl]⟩)
  · intro s req hopen
    simp [GetFlushedSegments, hopen]

theorem getFlushedSegments_nil_lookup_included_witness :
    (7 : UniqueID) ∈ [(7 : UniqueID)] ∧
    (7 : UniqueID) ∈ getFlushedSegmentsFilter (fun _ => none) [7] :=
  ⟨by decide,
   (getFlushedSegments_nil_lookup_included (fun _ => none) [7] 7 (by decide)).1 rfl⟩

/-- C9: `getCompactionState` reports Executing exactly when some task is in
the executing state; in every other case — in particular for an empty task
list or one holding only failed / timed-out tasks — it reports Completed,
and those are the only two possible answers. -/
theorem getCompactionState_executing_iff (tasks : List CompactionTask) :
    ((getCompactionState tasks).1 = CompactionState.Executing ↔
      ∃ task ∈ tasks, task.state = CompactionTaskState.executing) ∧
    ((getCompactionState tasks).1 = CompactionState.Executing ∨
     (getCompactionState tasks).1 = CompactionState.Completed) := by
  have hcount : ∀ (l : List CompactionTask) (acc : Nat × Nat × Nat),
      (l.foldl compactionCountStep acc).1
        = acc.1 + l.countP (fun t => decide (t.state = CompactionTaskState.executing)) := by
    intro l
    induction l with
    | nil => intro acc; simp
    | cons t rest ih =>
      intro acc
      rw [List.foldl_cons, ih, List.countP_cons]
      cases ht : t.state <;> simp [compactionCountStep, ht] <;> omega
  have h1 : (getCompactionState tasks).1
      = if tasks.countP (fun t => decide (t.state = CompactionTaskState.executing)) ≠ 0
        then CompactionState.Executing else CompactionState.Completed := by
    simp only [getCompactionState]
    rw [hcount tasks (0, 0, 0)]
    simp
  rw [h1]
  constructor
  · constructor
    · intro hex
      by_cases hc : tasks.countP (fun t => decide (t.state = CompactionTaskState.executing)) ≠ 0
      · obtain ⟨a, ha, hp⟩ := List.countP_pos.mp (Nat.pos_of_ne_zero hc)
        exact ⟨a, ha, of_decide_eq_true hp⟩
      · rw [if_neg hc] at hex
        exact absurd hex (by simp)
    · intro hex
      obtain ⟨task, hmem, hst⟩ := hex
      have hpos : 0 < tasks.countP (fun t => decide (t.state = CompactionTaskState.executing)) :=
        List.countP_pos.mpr ⟨task, hmem, by simp [hst]⟩
      rw [if_pos (by omega)]
  · by_cases hc : tasks.countP (fun t => decide (t.state = CompactionTaskState.executing)) ≠ 0
    · exact Or.inl (by rw [if_pos hc])
    · exact Or.inr (by rw [if_neg hc])

/-- C10: `flushBufferData` with a nil buffer (either a nil `BufferData` or
a nil inner buffer) and `flushDelData` with a nil delete buffer still
enqueue an empty flush task for the segment at the given position carrying
the supplied flushed/dropped flags, and return a nil error; a submitted
position can then proceed through the queue to its notify (last conjunct
exhibits a valid trace reaching `notifyEnd` for the submitted position). -/
theorem flushManager_empty_flush_enqueued (env : FMEnv) (segmentID : UniqueID)
    (flushed dropped : Bool) (pos : MsgPosition) (size : Int) (tsFrom tsTo : Nat)
    (filePath : String) (fileSize : Int) :
    flushBufferData env none segmentID flushed dropped pos
      = .ok [.enqueueInsertFlush segmentID [] [] false flushed dropped pos] ∧
    flushBufferData env (some ⟨none⟩) segmentID flushed dropped pos
      = .ok [.enqueueInsertFlush segmentID [] [] false flushed dropped pos] ∧
    flushDelData env none segmentID pos
      = .ok [.enqueueDelFlush segmentID none false pos] ∧
    flushDelData env (some ⟨none, size, tsFrom, tsTo, filePath, fileSize⟩) segmentID pos
      = .ok [.enqueueDelFlush segmentID none false pos] ∧
    ValidQ [.submit pos.msgID, .postTask pos.msgID, .notifyBegin pos.msgID,
            .notifyEnd pos.msgID] := by
  refine ⟨rfl, rfl, rfl, rfl, ?_⟩
  simp [ValidQ, stQ, stepQ, initQ]

theorem getCompactionState_executing_iff_witness :
    (getCompactionState [⟨.executing⟩]).1 = CompactionState.Executing ∧
    (getCompactionState []).1 = CompactionState.Completed :=
  ⟨(getCompactionState_executing_iff [⟨.executing⟩]).1.mpr
     ⟨⟨.executing⟩, List.mem_singleton.mpr rfl, rfl⟩,
   by decide⟩

/-- An environment whose non-empty paths are never taken. -/
def fmEnvWit : FMEnv :=
  { insertOutcome := fun _ _ _ => .error "unused",
    deleteOutcome := fun _ _ => .error "unused" }

theorem flushManager_empty_flush_enqueued_witness :
    flushBufferData fmEnvWit none 7 true false ⟨"ch1", "m1", 5⟩
      = .ok [.enqueueInsertFlush 7 [] [] false true false ⟨"ch1", "m1", 5⟩] :=
  (flushManager_empty_flush_enqueued fmEnvWit 7 true false ⟨"ch1", "m1", 5⟩ 0 0 0 "" 0).1

end Milvus
